import Mathlib

set_option maxRecDepth 8000

/- Verification of the BOFT adapter model-surgery layer
(`src/peft/tuners/boft/model.py`, class `BOFTModel`).

The embedding abstracts the PyTorch runtime as follows.

* A tensor is a record of an identity (`tid`, standing in for Python object
  identity), a device, its `requires_grad` flag, and a `folded` flag.  The
  `folded` flag is modelled from the spec: `BOFTLayer.merge` (in `layer.py`,
  which is not among the sources) folds the orthogonal adapter transform into
  the base weight's data in place; we track only that the fold happened.

* A module tree mirrors `torch.nn.Module`: `linear` is a plain
  `torch.nn.Linear` (with an optional quantization `state`), `boft` is the
  adapter wrapper `Linear` from `layer.py` (an `nn.Linear` subclass in this
  repository: it is constructed from `in_features`/`out_features` and owns the
  base weight directly, it has no `base_layer` attribute, which is why
  `_replace_module` copies `child.weight` into it), `pdict` is an
  `nn.ParameterDict` (`boft_R`, `boft_s`), `mdict` is the per-adapter dropout
  container, and `plain` is any other module with direct parameters and named
  child modules.  Wrapper internals (`update_layer`, fresh parameter
  initialisation, the dropout container) are modelled from the spec since
  `layer.py` is not among the sources; the dropout container is modelled as a
  leaf dictionary module.

* Submodule names are lists of path components instead of dot-joined strings.
  Every substring probed by the source (`"boft"`, `"lora"`, `"boft_"`,
  `"bias"`) contains no dot, so `sub in dotted_name` is equivalent to `sub`
  occurring inside some single component, which is how `keyHas` tests it.

* Python exceptions become an `Except` error type; `warnings.warn` calls are
  collected into result lists. -/

namespace BOFT

structure Tensor where
  tid : Nat
  device : Nat
  requiresGrad : Bool
  folded : Bool
deriving DecidableEq, Repr

/-- The fields of a `torch.nn.Linear` used by `model.py`: feature sizes, the
weight, the optional bias, and the optional quantization `state` attribute
probed by `_replace_module` (line 163). -/
structure LinearData where
  inFeatures : Nat
  outFeatures : Nat
  weight : Tensor
  bias : Option Tensor
  state : Option Nat
deriving DecidableEq, Repr

/-- The `BOFTConfig` fields read by `model.py` (`config.py` is not among the
sources; the fields are modelled from their use at lines 119-126, 138-144,
181, and 203-208). -/
structure BOFTConfig where
  boft_block_size : Nat
  boft_block_num : Nat
  boft_n_butterfly_factor : Nat
  boft_dropout : Nat
  fan_in_fan_out : Bool
  init_boft_weights : Bool
  boft_bias_fit : Bool
  bias : String
deriving DecidableEq, Repr

/-- Modelled from the spec: the per-adapter containers a `BOFTLayer` keeps
(`layer.py` is not among the sources).  `delete_adapter` (lines 307-313) pops
the five dictionaries by adapter name; `boft_R`/`boft_s` are parameter
dictionaries whose entries show up in `named_parameters` under names
containing `boft_`; `active_adapter_list` backs `active_adapters` /
`set_adapter` of the wrapped layer. -/
structure BoftData where
  boft_block_size : List (String × Nat)
  boft_block_num : List (String × Nat)
  boft_R : List (String × Tensor)
  boft_s : List (String × Tensor)
  boft_dropout : List (String × Nat)
  active_adapter_list : List String
  fan_in_fan_out : Bool
deriving DecidableEq, Repr

mutual
inductive Module where
  | linear : LinearData → Module
  | boft : BoftData → LinearData → Module
  | pdict : List (String × Tensor) → Module
  | mdict : List (String × Nat) → Module
  | plain : List (String × Tensor) → Children → Module
deriving DecidableEq, Repr

inductive Children where
  | nil : Children
  | cons : String → Module → Children → Children
deriving DecidableEq, Repr
end

inductive PErr where
  | valueError : String → PErr
  | nameError : String → PErr
  | notImplementedError : String → PErr
  | keyError : String → PErr
  | attributeError : PErr
deriving DecidableEq, Repr

/-! String containment (Python's `sub in s`), over character lists. -/

def chStarts : List Char → List Char → Bool
  | _, [] => true
  | [], _ :: _ => false
  | c :: cs, d :: ds => c = d && chStarts cs ds

def chHas : List Char → List Char → Bool
  | [], sub => chStarts [] sub
  | c :: cs, sub => chStarts (c :: cs) sub || chHas cs sub

/-- `strHasSub s sub` is Python's `sub in s`. -/
def strHasSub (s sub : String) : Bool :=
  chHas s.toList sub.toList

/-- `keyHas k sub` is `sub in ".".join(k)` for the dot-free substrings probed
by `model.py` (`"boft"`, `"lora"`, `"boft_"`, `"bias"`): such a substring
occurs in the dot-joined name exactly when it occurs in one component. -/
def keyHas (k : List String) (sub : String) : Bool :=
  k.any (fun c => strHasSub c sub)

/-! Association-list style access to named children. -/

def lookupC : Children → String → Option Module
  | .nil, _ => none
  | .cons n m r, q => if n = q then some m else lookupC r q

def setC : Children → String → Module → Option Children
  | .nil, _, _ => none
  | .cons n m r, q, x =>
    if n = q then some (.cons n x r) else (setC r q x).map (.cons n m)

def lookupCfg : List (String × BOFTConfig) → String → Option BOFTConfig
  | [], _ => none
  | e :: r, q => if e.1 = q then some e.2 else lookupCfg r q

/-- `getattr`-style lookup of a named child module.  The three auxiliary
containers of a wrapper are registered submodules of it. -/
def childLookup : Module → String → Option Module
  | .plain _ cs, q => lookupC cs q
  | .boft bd _, q =>
    if q = "boft_R" then some (.pdict bd.boft_R)
    else if q = "boft_s" then some (.pdict bd.boft_s)
    else if q = "boft_dropout" then some (.mdict bd.boft_dropout)
    else none
  | _, _ => none

/-- `model.get_submodule(key)`; `none` is the `AttributeError` case. -/
def getSub : Module → List String → Option Module
  | m, [] => some m
  | m, n :: rest => (childLookup m n).bind (fun c => getSub c rest)

/-- `setattr(parent, child_name, new_module)` for a named child.  Only
container modules can have a child replaced; no modelled operation replaces a
module inside a wrapper or a parameter dictionary. -/
def setChild : Module → String → Module → Option Module
  | .plain ps cs, q, x => (setC cs q x).map (.plain ps)
  | _, _, _ => none

/-- Replace the submodule at `k` (the `_get_submodules` parent lookup followed
by `setattr`, lines 148-149 and 276/284). -/
def replaceAt : Module → List String → Module → Option Module
  | _, [], x => some x
  | m, n :: rest, x =>
    (childLookup m n).bind (fun c => (replaceAt c rest x).bind (fun c' => setChild m n c'))

/-! `named_modules` keys (pre-order, root first) and `named_parameters`. -/

mutual
def namedKeys : Module → List (List String)
  | .linear _ => [[]]
  | .boft _ _ => [[], ["boft_R"], ["boft_s"], ["boft_dropout"]]
  | .pdict _ => [[]]
  | .mdict _ => [[]]
  | .plain _ cs => [] :: keysC cs

def keysC : Children → List (List String)
  | .nil => []
  | .cons n m r => (namedKeys m).map (fun k => n :: k) ++ keysC r
end

/- `named_parameters`, with one extra Bool per entry marking the bias of a
wrapper layer (the tensors targeted by the `boft_only` bias policy, line
190-192).  Names are component lists relative to the module. -/
mutual
def npb : Module → List (List String × Bool × Tensor)
  | .linear ld =>
    (["weight"], false, ld.weight) ::
      (match ld.bias with
       | some b => [(["bias"], false, b)]
       | none => [])
  | .boft bd base =>
    (["weight"], false, base.weight) ::
      ((match base.bias with
        | some b => [(["bias"], true, b)]
        | none => []) ++
       bd.boft_R.map (fun e => (["boft_R", e.1], false, e.2)) ++
       bd.boft_s.map (fun e => (["boft_s", e.1], false, e.2)))
  | .pdict ps => ps.map (fun e => ([e.1], false, e.2))
  | .mdict _ => []
  | .plain ps cs => ps.map (fun e => ([e.1], false, e.2)) ++ npbC cs

def npbC : Children → List (List String × Bool × Tensor)
  | .nil => []
  | .cons n m r => (npb m).map (fun e => (n :: e.1, e.2.1, e.2.2)) ++ npbC r
end

def allTensors (m : Module) : List Tensor :=
  (npb m).map (fun e => e.2.2)

/-! Tensor-level updates (`requires_grad` toggling, `.to(device)`). -/

def setRG (b : Bool) (t : Tensor) : Tensor :=
  { t with requiresGrad := b }

def setDev (d : Nat) (t : Tensor) : Tensor :=
  { t with device := d }

def mapLD (f : Tensor → Tensor) (ld : LinearData) : LinearData :=
  { ld with weight := f ld.weight, bias := ld.bias.map f }

def mapBD (f : Tensor → Tensor) (bd : BoftData) : BoftData :=
  { bd with boft_R := bd.boft_R.map (fun e => (e.1, f e.2)),
            boft_s := bd.boft_s.map (fun e => (e.1, f e.2)) }

/- Apply `f` to every parameter tensor of the tree (`module.to(device)` is
`mapTensors (setDev d)`, `module.requires_grad_(b)` is
`mapTensors (setRG b)`). -/
mutual
def mapTensors (f : Tensor → Tensor) : Module → Module
  | .linear ld => .linear (mapLD f ld)
  | .boft bd base => .boft (mapBD f bd) (mapLD f base)
  | .pdict ps => .pdict (ps.map (fun e => (e.1, f e.2)))
  | .mdict d => .mdict d
  | .plain ps cs => .plain (ps.map (fun e => (e.1, f e.2))) (mapTC f cs)

def mapTC (f : Tensor → Tensor) : Children → Children
  | .nil => .nil
  | .cons n m r => .cons n (mapTensors f m) (mapTC f r)
end

/-! Shape predicates and attribute access used by `model.py`. -/

/-- `isinstance(target, BOFTLayer)`. -/
def isBoftB : Module → Bool
  | .boft _ _ => true
  | _ => false

/-- `isinstance(target, torch.nn.Linear)`: the wrapper `Linear` of `layer.py`
subclasses `torch.nn.Linear`, so both pass (line 201). -/
def isTorchLinearB : Module → Bool
  | .linear _ => true
  | .boft _ _ => true
  | _ => false

def weightOf : Module → Option Tensor
  | .linear ld => some ld.weight
  | .boft _ base => some base.weight
  | _ => none

/-- `child.weight.device` (lines 168, 173); only ever evaluated on modules
that have a weight (a Linear or a wrapper), the default is never reached by
the modelled flows. -/
def weightDev (m : Module) : Nat :=
  match weightOf m with
  | some w => w.device
  | none => 0

def stateOf : Module → Option Nat
  | .linear ld => ld.state
  | .boft _ base => base.state
  | _ => none

/-- `hasattr(child, "bias")`: `nn.Linear` and its wrapper subclass always have
the attribute (possibly `None`). -/
def hasBiasAttr : Module → Bool
  | .linear _ => true
  | .boft _ _ => true
  | _ => false

def biasOf : Module → Option Tensor
  | .linear ld => ld.bias
  | .boft _ base => base.bias
  | _ => none

def setWeightBias (w : Tensor) (b : Option Tensor) : Module → Module
  | .linear ld => .linear { ld with weight := w, bias := b }
  | .boft bd base => .boft bd { base with weight := w, bias := b }
  | m => m

def setState (s : Nat) : Module → Module
  | .linear ld => .linear { ld with state := some s }
  | .boft bd base => .boft bd { base with state := some s }
  | m => m

def featuresOf : Module → Nat × Nat
  | .linear ld => (ld.inFeatures, ld.outFeatures)
  | .boft _ base => (base.inFeatures, base.outFeatures)
  | _ => (0, 0)

/- Lines 158-161: `new_module.weight = child.weight` and, when the child has a
bias attribute, `new_module.bias = child.bias`.  Neither the wrapper `Linear`
of this repository nor a fresh `torch.nn.Linear` has a `base_layer`
attribute, so the copy always runs, and the unpacking at line 154 keeps
`child` itself. -/
def copyWeightBias (child new : Module) : Module :=
  match weightOf child with
  | none => new
  | some w => setWeightBias w (if hasBiasAttr child then biasOf child else biasOf new) new

/- Lines 170-173: `for name, module in new_module.named_modules(): if "boft_"
in name: module.to(child.weight.device)`.  `.to` moves a whole subtree, and a
dotted name contains `boft_` exactly when some component does (no dot occurs
in `boft_`), so the loop moves every subtree rooted at a first matching
component; the wrapper's three auxiliary containers all match. -/
mutual
def dispatchBoft (d : Nat) : Module → Module
  | .linear ld => .linear ld
  | .boft bd base => .boft (mapBD (setDev d) bd) base
  | .pdict ps => .pdict ps
  | .mdict x => .mdict x
  | .plain ps cs => .plain ps (dispatchC d cs)

def dispatchC (d : Nat) : Children → Children
  | .nil => .nil
  | .cons n m r =>
    .cons n (if strHasSub n "boft_" then mapTensors (setDev d) m else dispatchBoft d m)
      (dispatchC d r)
end

/-- `_replace_module` (lines 147-173) minus the `setattr`: the weight/bias
copy, the quantization-state transfer with its device move, and the device
dispatch of the `boft_` submodules, producing the module that ends up
installed in the parent. -/
def replace_module_transform (child new : Module) : Module :=
  let new1 := copyWeightBias child new
  let new2 :=
    match stateOf child with
    | some s => mapTensors (setDev (weightDev child)) (setState s new1)
    | none => new1
  dispatchBoft (weightDev child) new2

/-! `_create_new_module` and `_create_and_replace`. -/

/-- Modelled from the spec: a freshly initialised parameter tensor (the
initialisers live in `layer.py`, which is not among the sources).  Fresh
tensors are either immediately overwritten by `_replace_module`'s copy or are
adapter parameters whose values no claim observes. -/
def freshTensor : Tensor :=
  { tid := 0, device := 0, requiresGrad := true, folded := false }

def freshLinear (i o : Nat) (b : Bool) : LinearData :=
  { inFeatures := i, outFeatures := o, weight := freshTensor,
    bias := if b then some freshTensor else none, state := none }

def upsert {A : Type} (l : List (String × A)) (kx : String) (v : A) : List (String × A) :=
  if l.any (fun e => e.1 = kx) then
    l.map (fun e => if e.1 = kx then (kx, v) else e)
  else l ++ [(kx, v)]

/-- Modelled from the spec: the per-adapter containers the wrapper `Linear`
constructor registers for its initial adapter (`layer.py` is not among the
sources). -/
def newBoftData (adapter : String) (cfg : BOFTConfig) : BoftData :=
  { boft_block_size := [(adapter, cfg.boft_block_size)],
    boft_block_num := [(adapter, cfg.boft_block_num)],
    boft_R := [(adapter, freshTensor)],
    boft_s := [(adapter, freshTensor)],
    boft_dropout := [(adapter, cfg.boft_dropout)],
    active_adapter_list := [adapter],
    fan_in_fan_out := cfg.fan_in_fan_out }

/-- Modelled from the spec: `BOFTLayer.update_layer` (line 137, defined in
`layer.py` which is not among the sources) registers the new named adapter's
configuration and freshly initialised parameters on the existing wrapper,
leaving the base layer and the other registered adapters in place. -/
def update_layer (bd : BoftData) (adapter : String) (cfg : BOFTConfig) : BoftData :=
  { bd with
    boft_block_size := upsert bd.boft_block_size adapter cfg.boft_block_size,
    boft_block_num := upsert bd.boft_block_num adapter cfg.boft_block_num,
    boft_R := upsert bd.boft_R adapter freshTensor,
    boft_s := upsert bd.boft_s adapter freshTensor,
    boft_dropout := upsert bd.boft_dropout adapter cfg.boft_dropout }

def fanWarnMsg : String :=
  "fan_in_fan_out is set to True but the target module is torch.nn.Linear. Setting fan_in_fan_out to False."

def unsupportedMsg : String :=
  "Target module is not supported. Currently, only torch.nn.Linear is supported."

/-- `_create_new_module` (lines 197-216): only `torch.nn.Linear` instances are
supported; a true `fan_in_fan_out` flag is forced to `False` with a warning,
also mutating `boft_config` (line 208).  Returns the new wrapper, the
(possibly mutated) config, and the warnings issued. -/
def create_new_module (cfg : BOFTConfig) (adapter : String) (target : Module) (biasFlag : Bool) :
    Except PErr (Module × BOFTConfig × List String) :=
  if isTorchLinearB target then
    let io := featuresOf target
    let warned := cfg.fan_in_fan_out
    let cfg' := if warned then { cfg with fan_in_fan_out := false } else cfg
    .ok (.boft (newBoftData adapter cfg') (freshLinear io.1 io.2 biasFlag), cfg',
      if warned then [fanWarnMsg] else [])
  else
    .error (.valueError unsupportedMsg)

/-- `_create_and_replace` (lines 109-145) applied to the target at key `k`,
together with the parent lookup and `setattr` done by `_replace_module` (the
traversal of `inject_adapter` in `tuners_utils.py`, not among the sources,
hands `parent`, `target` and `target_name` over exactly like this).  A target
that is already a `BOFTLayer` gets `update_layer` called on it; any other
target is handed to `_create_new_module`, optionally frozen when the adapter
being added is not the active one (lines 132-134), and installed via
`_replace_module`. -/
def create_and_replaceAt (cfg : BOFTConfig) (adapter active : String) (m : Module)
    (k : List String) : Except PErr (Module × BOFTConfig × List String) :=
  match getSub m k with
  | none => .error .attributeError
  | some target =>
    match target with
    | .boft bd base =>
      match replaceAt m k (.boft (update_layer bd adapter cfg) base) with
      | some m' => .ok (m', cfg, [])
      | none => .error .attributeError
    | _ =>
      let biasFlag := hasBiasAttr target && (biasOf target).isSome
      match create_new_module cfg adapter target biasFlag with
      | .error e => .error e
      | .ok (nm, cfg', ws) =>
        let nm1 := if adapter = active then nm else mapTensors (setRG false) nm
        match replaceAt m k (replace_module_transform target nm1) with
        | some m' => .ok (m', cfg', ws)
        | none => .error .attributeError

/-! `_mark_only_adapters_as_trainable` (lines 175-194). -/

/-- One parameter update of a name-guarded loop: apply `onHit` when the full
dotted name contains `sub` (some component matched, possibly an ancestor,
tracked by `seen`), `onMiss` otherwise. -/
def hitT (sub : String) (onHit onMiss : Tensor → Tensor) (seen : Bool)
    (name : List String) (t : Tensor) : Tensor :=
  if seen || keyHas name sub then onHit t else onMiss t

/- A loop `for n, p in model.named_parameters()` whose body branches on
`sub in n`.  The first loop of `_mark_only_adapters_as_trainable` is
`markBySub "boft_" id (setRG false) false`; the `bias == "all"` loop is
`markBySub "bias" (setRG true) id false`. -/
mutual
def markBySub (sub : String) (onHit onMiss : Tensor → Tensor) (seen : Bool) : Module → Module
  | .linear ld =>
    .linear { ld with weight := hitT sub onHit onMiss seen ["weight"] ld.weight,
                      bias := ld.bias.map (hitT sub onHit onMiss seen ["bias"]) }
  | .boft bd base =>
    .boft { bd with
            boft_R := bd.boft_R.map (fun e => (e.1, hitT sub onHit onMiss seen ["boft_R", e.1] e.2)),
            boft_s := bd.boft_s.map (fun e => (e.1, hitT sub onHit onMiss seen ["boft_s", e.1] e.2)) }
      { base with weight := hitT sub onHit onMiss seen ["weight"] base.weight,
                  bias := base.bias.map (hitT sub onHit onMiss seen ["bias"]) }
  | .pdict ps => .pdict (ps.map (fun e => (e.1, hitT sub onHit onMiss seen [e.1] e.2)))
  | .mdict d => .mdict d
  | .plain ps cs =>
    .plain (ps.map (fun e => (e.1, hitT sub onHit onMiss seen [e.1] e.2)))
      (markC sub onHit onMiss seen cs)

def markC (sub : String) (onHit onMiss : Tensor → Tensor) (seen : Bool) : Children → Children
  | .nil => .nil
  | .cons n m r =>
    .cons n (markBySub sub onHit onMiss (seen || strHasSub n sub) m)
      (markC sub onHit onMiss seen r)
end

/- The `bias == "boft_only"` loop (lines 189-192): for every `BOFTLayer`
module with a bias, set that bias's `requires_grad`. -/
mutual
def boftOnly : Module → Module
  | .boft bd base => .boft bd { base with bias := base.bias.map (setRG true) }
  | .plain ps cs => .plain ps (boftOnlyC cs)
  | m => m

def boftOnlyC : Children → Children
  | .nil => .nil
  | .cons n m r => .cons n (boftOnly m) (boftOnlyC r)
end

/-- The first loop of `_mark_only_adapters_as_trainable` (lines 176-178):
freeze every parameter whose name does not contain `boft_`. -/
def markStep1 (m : Module) : Module :=
  markBySub "boft_" id (setRG false) false m

/-- The per-adapter bias policy (lines 181-194). -/
def applyBias (m : Module) (b : String) : Except PErr Module :=
  if b = "none" then .ok m
  else if b = "all" then .ok (markBySub "bias" (setRG true) id false m)
  else if b = "boft_only" then .ok (boftOnly m)
  else .error (.notImplementedError ("Requested bias: " ++ b ++ ", is not implemented."))

def markFold (cfgs : List (String × BOFTConfig)) : List String → Module → Except PErr Module
  | [], m => .ok m
  | a :: rest, m =>
    match lookupCfg cfgs a with
    | none => .error (.keyError a)
    | some c =>
      match applyBias m c.bias with
      | .ok m' => markFold cfgs rest m'
      | .error e => .error e

/-- `_mark_only_adapters_as_trainable` over the model, the adapter registry
`peft_config`, and the list of active adapters. -/
def mark_only_adapters_as_trainable (cfgs : List (String × BOFTConfig))
    (actives : List String) (m : Module) : Except PErr Module :=
  markFold cfgs actives (markStep1 m)

/-! `_unload_and_optionally_merge` (lines 271-290), `merge_and_unload`,
`unload`. -/

/-- Modelled from the spec: `BOFTLayer.merge` (line 283, in `layer.py` which
is not among the sources) folds the adapter transform into the base weight's
data in place; the tensor object stays the same and we record the fold. -/
def foldT (t : Tensor) : Tensor :=
  { t with folded := true }

def mergeIf (mg : Bool) (base : LinearData) : LinearData :=
  if mg then { base with weight := foldT base.weight } else base

/-- The module installed for an unloaded wrapper: a fresh
`torch.nn.Linear(in_features, out_features, bias=target.bias is not None)`
(line 281) after `_replace_module` copied the (merged) weight and bias and
transferred any quantization state. -/
def stepLinear (mg : Bool) (bd : BoftData) (base : LinearData) : Module :=
  replace_module_transform (.boft bd (mergeIf mg base))
    (.linear (freshLinear base.inFeatures base.outFeatures base.bias.isSome))

/-- One iteration of the `_unload_and_optionally_merge` loop (lines 274-288).
A failing `_get_submodules` is caught and skipped (lines 275-278).  For the
root key the merge still happens in place but `setattr` under the empty
trailing name cannot replace the model object itself, so the wrapper stays.
(`ModulesToSaveWrapper` handling, line 287, is outside the modelled claims.) -/
def unloadStep (mg : Bool) (m : Module) (k : List String) : Module :=
  match getSub m k with
  | some (.boft bd base) =>
    match k with
    | [] => .boft bd (mergeIf mg base)
    | _ :: _ => (replaceAt m k (stepLinear mg bd base)).getD m
  | _ => m

/-- Line 272: the keys of `named_modules` whose dotted name does not contain
`boft`, snapshotted before the loop mutates the model. -/
def unloadKeys (m : Module) : List (List String) :=
  (namedKeys m).filter (fun k => keyHas k "boft" = false)

def unloadAndOptionallyMerge (mg : Bool) (m : Module) : Module :=
  (unloadKeys m).foldl (unloadStep mg) m

def merge_and_unload (m : Module) : Module :=
  unloadAndOptionallyMerge true m

def unload (m : Module) : Module :=
  unloadAndOptionallyMerge false m

/-! `delete_adapter` (lines 292-323). -/

def removeKey {A : Type} (l : List (String × A)) (kx : String) : List (String × A) :=
  l.filter (fun e => e.1 ≠ kx)

/-- The per-layer body of `delete_adapter` (lines 307-323): pop the adapter
from the five per-adapter containers, and when it was active reset the
layer's active adapter to the first remaining registered name (or
`"default"`) with a warning.  `target.set_adapter` is modelled from the spec
(`BaseTunerLayer.set_adapter`, not among the sources): it makes the given
adapter the layer's single active adapter. -/
def deleteBd (cfgs' : List (String × BOFTConfig)) (adapter : String) (bd : BoftData) :
    BoftData × List String :=
  let bd1 := { bd with
    boft_block_size := removeKey bd.boft_block_size adapter,
    boft_block_num := removeKey bd.boft_block_num adapter,
    boft_R := removeKey bd.boft_R adapter,
    boft_s := removeKey bd.boft_s adapter,
    boft_dropout := removeKey bd.boft_dropout adapter }
  if adapter ∈ bd.active_adapter_list then
    let r := match cfgs' with
      | [] => "default"
      | e :: _ => e.1
    ({ bd1 with active_adapter_list := [r] },
      ["Adapter " ++ adapter ++ " was active which is now deleted. Setting active adapter to " ++ r ++ ". "])
  else (bd1, [])

/-- The key loop of `delete_adapter` (lines 304-323).  Unlike the unload loop
there is no `try`/`except` around `_get_submodules`, so a failing lookup is
an uncaught `AttributeError`. -/
def deleteFold (cfgs' : List (String × BOFTConfig)) (adapter : String) :
    List (List String) → Module → List String → Except PErr (Module × List String)
  | [], m, ws => .ok (m, ws)
  | k :: rest, m, ws =>
    match getSub m k with
    | none => .error .attributeError
    | some (.boft bd base) =>
      let p := deleteBd cfgs' adapter bd
      match replaceAt m k (.boft p.1 base) with
      | none => .error .attributeError
      | some m' => deleteFold cfgs' adapter rest m' (ws ++ p.2)
    | some _ => deleteFold cfgs' adapter rest m ws

/-- `delete_adapter` (lines 292-323): reject unregistered names, drop the
registry entry, then walk the keys of `named_modules` whose dotted name does
not contain `lora` (line 303). -/
def delete_adapter (cfgs : List (String × BOFTConfig)) (m : Module) (adapter : String) :
    Except PErr (List (String × BOFTConfig) × Module × List String) :=
  if cfgs.any (fun e => e.1 = adapter) then
    let cfgs' := removeKey cfgs adapter
    match deleteFold cfgs' adapter
        ((namedKeys m).filter (fun k => keyHas k "lora" = false)) m [] with
    | .ok (m', ws) => .ok (cfgs', m', ws)
    | .error e => .error e
  else .error (.valueError ("Adapter " ++ adapter ++ " does not exist"))

/-! `_check_new_adapter_config` (lines 90-103). -/

def biasConflictMsg : String :=
  "BOFTModel supports only 1 adapter with bias. When using multiple adapters, set bias to none for all adapters."

def check_new_adapter_config (cfgs : List (String × BOFTConfig)) (c : BOFTConfig) :
    Except PErr Unit :=
  if 1 < cfgs.length ∧ c.bias ≠ "none" then .error (.valueError biasConflictMsg)
  else .ok ()

/-! `set_adapter` (lines 253-259). -/

/-- The names bound at module scope in `model.py` (the imports at lines 16-41
and the class itself); `LoraLayer` is not among them. -/
def moduleScopeNames : List String :=
  ["operator", "re", "warnings", "asdict", "replace", "Enum", "reduce", "chain",
   "torch", "nn", "tqdm", "Conv1D", "is_bnb_4bit_available", "is_bnb_available",
   "BaseTuner", "BaseTunerLayer", "check_target_module_exists",
   "TRANSFORMERS_MODELS_TO_LORA_TARGET_MODULES_MAPPING", "ModulesToSaveWrapper",
   "_freeze_adapter", "_get_submodules", "get_auto_gptq_quant_linear",
   "get_quantization_config", "BOFTConfig", "Linear", "BOFTLayer", "BOFTModel"]

/- `self.model.modules()`: the model itself followed by all submodules. -/
mutual
def allModules : Module → List Module
  | .linear ld => [.linear ld]
  | .boft bd base =>
    [.boft bd base, .pdict bd.boft_R, .pdict bd.boft_s, .mdict bd.boft_dropout]
  | .pdict ps => [.pdict ps]
  | .mdict d => [.mdict d]
  | .plain ps cs => .plain ps cs :: allModulesC cs

def allModulesC : Children → List Module
  | .nil => []
  | .cons _ m r => allModules m ++ allModulesC r
end

/-- The loop body of `set_adapter` (lines 254-259).  Evaluating
`isinstance(module, LoraLayer)` first resolves the bare name `LoraLayer`,
which is not bound in the module scope, raising `NameError`; the guarded body
(which would unmerge and switch adapters) is unreachable and left as a
skip. -/
def setAdapterLoop (m : Module) : List Module → Except PErr Module
  | [] => .ok m
  | _ :: rest =>
    if moduleScopeNames.contains "LoraLayer" then setAdapterLoop m rest
    else .error (.nameError "LoraLayer")

def set_adapter (m : Module) (_adapter : String) : Except PErr Module :=
  setAdapterLoop m (allModules m)

/-! Well-formedness (PyTorch registers children in a dict, so sibling names
are distinct) and a structural check for remaining wrappers. -/

def childNames : Children → List String
  | .nil => []
  | .cons n _ r => n :: childNames r

mutual
def wfB : Module → Bool
  | .plain _ cs => decide (childNames cs).Nodup && wfC cs
  | _ => true

def wfC : Children → Bool
  | .nil => true
  | .cons _ m r => wfB m && wfC r
end

/- Does the tree contain a `BOFTLayer` module anywhere? -/
mutual
def containsBoftB : Module → Bool
  | .boft _ _ => true
  | .plain _ cs => containsBoftC cs
  | _ => false

def containsBoftC : Children → Bool
  | .nil => false
  | .cons _ m r => containsBoftB m || containsBoftC r
end


/-! Induction principle for `Children` alone (the mutual recursor has two
motives, which the `induction` tactic does not accept). -/

def childrenInd {P : Children → Prop} (h0 : P .nil)
    (h1 : ∀ n m r, P r → P (.cons n m r)) : ∀ cs, P cs
  | .nil => h0
  | .cons n m r => h1 n m r (childrenInd h0 h1 r)

/-! Generic association lookups. -/

def lookupA {A : Type} : List (String × A) → String → Option A
  | [], _ => none
  | e :: r, q => if e.1 = q then some e.2 else lookupA r q

theorem lookupA_upsert_self {A : Type} (l : List (String × A)) (kx : String) (v : A) :
    lookupA (upsert l kx v) kx = some v := by
  unfold upsert
  split
  case isTrue h =>
    induction l with
    | nil => simp at h
    | cons e r ih =>
      by_cases he : e.1 = kx
      · simp [lookupA, he]
      · simp only [List.any_cons, decide_eq_false he, Bool.false_or] at h
        simp only [List.map_cons, lookupA, if_neg he]
        exact ih h
  case isFalse h =>
    induction l with
    | nil => simp [lookupA]
    | cons e r ih =>
      have he : ¬ e.1 = kx := by
        intro hc
        exact h (by simp [List.any_cons, hc])
      have hr : ¬ r.any (fun e => decide (e.1 = kx)) = true := by
        intro hc
        exact h (by simp [List.any_cons, hc])
      simp only [List.cons_append, lookupA, if_neg he]
      exact ih hr

/-! Lemmas about named-children lookup and update. -/

theorem setC_some_of_lookupC {cs : Children} {q : String} {c : Module}
    (h : lookupC cs q = some c) (x : Module) : ∃ cs', setC cs q x = some cs' := by
  induction cs using childrenInd with
  | h0 => simp [lookupC] at h
  | h1 n m r ih =>
    by_cases hn : n = q
    · subst hn
      exact ⟨.cons n x r, by simp [setC]⟩
    · simp only [lookupC, if_neg hn] at h
      obtain ⟨cs', hcs'⟩ := ih h
      exact ⟨.cons n m cs', by simp [setC, if_neg hn, hcs']⟩

theorem lookupC_setC_self {cs : Children} {q : String} {x : Module} :
    ∀ {cs'}, setC cs q x = some cs' → lookupC cs' q = some x := by
  induction cs using childrenInd with
  | h0 => intro cs' h; simp [setC] at h
  | h1 n m r ih =>
    intro cs' h
    by_cases hn : n = q
    · simp only [setC, if_pos hn] at h
      cases h
      simp [lookupC, hn]
    · simp only [setC, if_neg hn, Option.map_eq_some'] at h
      obtain ⟨r', hr', rfl⟩ := h
      simp [lookupC, if_neg hn, ih hr']

theorem lookupC_setC_ne {cs : Children} {q : String} {x : Module} :
    ∀ {cs'}, setC cs q x = some cs' → ∀ {q' : String}, q' ≠ q →
      lookupC cs' q' = lookupC cs q' := by
  induction cs using childrenInd with
  | h0 => intro cs' h; simp [setC] at h
  | h1 n m r ih =>
    intro cs' h q' hne
    by_cases hn : n = q
    · simp only [setC, if_pos hn] at h
      cases h
      have : ¬ n = q' := fun hc => hne (by rw [← hc]; exact hn)
      simp [lookupC, if_neg this]
    · simp only [setC, if_neg hn, Option.map_eq_some'] at h
      obtain ⟨r', hr', rfl⟩ := h
      by_cases hq' : n = q'
      · simp [lookupC, hq']
      · simp [lookupC, if_neg hq', ih hr' hne]

theorem mem_childNames_of_lookupC {cs : Children} {q : String} {c : Module}
    (h : lookupC cs q = some c) : q ∈ childNames cs := by
  induction cs using childrenInd with
  | h0 => simp [lookupC] at h
  | h1 n m r ih =>
    by_cases hn : n = q
    · simp [childNames, hn]
    · simp only [lookupC, if_neg hn] at h
      simp [childNames, ih h]

/-! Navigation lemmas. -/

theorem getSub_append (a : List String) :
    ∀ (m : Module) (b : List String),
      getSub m (a ++ b) = (getSub m a).bind (fun t => getSub t b) := by
  induction a with
  | nil => intro m b; simp [getSub]
  | cons n rest ih =>
    intro m b
    simp only [List.cons_append, getSub]
    cases hcl : childLookup m n with
    | none => simp
    | some c => simpa using ih c b

/-- Under a wrapper there are only the three auxiliary containers: no
`torch.nn.Linear` instance (in particular no `BOFTLayer`) occurs at a proper
subpath of a wrapper. -/
theorem getSub_boft_not_torchLinear {s : List String} {bd : BoftData} {base : LinearData}
    {t : Module} (hs : s ≠ []) (h : getSub (.boft bd base) s = some t) :
    isTorchLinearB t = false := by
  cases s with
  | nil => exact absurd rfl hs
  | cons n rest =>
    simp only [getSub] at h
    cases hcl : childLookup (.boft bd base) n with
    | none => simp [hcl] at h
    | some c =>
      simp only [hcl, Option.some_bind] at h
      have hc : c = .pdict bd.boft_R ∨ c = .pdict bd.boft_s ∨ c = .mdict bd.boft_dropout := by
        simp only [childLookup] at hcl
        split at hcl
        · exact Or.inl (by cases hcl; rfl)
        · split at hcl
          · exact Or.inr (Or.inl (by cases hcl; rfl))
          · split at hcl
            · exact Or.inr (Or.inr (by cases hcl; rfl))
            · simp at hcl
      rcases hc with rfl | rfl | rfl <;>
        cases rest with
        | nil => simp only [getSub, Option.some_inj] at h; subst h; rfl
        | cons n2 r2 => simp [getSub, childLookup] at h

theorem isTorchLinearB_of_isBoftB {t : Module} (h : isBoftB t = true) :
    isTorchLinearB t = true := by
  cases t <;> simp_all [isBoftB, isTorchLinearB]

/-- When navigation reaches a Linear or a wrapper at `k`, the path runs
through ordinary containers, so the `setattr` replacement at `k` succeeds. -/
theorem replaceAt_some {k : List String} :
    ∀ {m t : Module}, getSub m k = some t → isTorchLinearB t = true →
      ∀ x, ∃ m', replaceAt m k x = some m' := by
  induction k with
  | nil => intro m t _ _ x; exact ⟨x, rfl⟩
  | cons n rest ih =>
    intro m t hget hlin x
    simp only [getSub] at hget
    cases hcl : childLookup m n with
    | none => simp [hcl] at hget
    | some c =>
      simp only [hcl, Option.some_bind] at hget
      cases m with
      | plain ps cs =>
        obtain ⟨c', hc'⟩ := ih hget hlin x
        have hl : lookupC cs n = some c := hcl
        obtain ⟨cs', hcs'⟩ := setC_some_of_lookupC hl c'
        refine ⟨.plain ps cs', ?_⟩
        simp [replaceAt, childLookup, hl, hc', setChild, hcs']
      | boft bd base =>
        exfalso
        have hfull : getSub (Module.boft bd base) (n :: rest) = some t := by
          simp [getSub, hcl, hget]
        have hc : isTorchLinearB t = false :=
          getSub_boft_not_torchLinear (by simp) hfull
        rw [hc] at hlin; exact Bool.false_ne_true hlin
      | linear ld => simp [childLookup] at hcl
      | pdict ps => simp [childLookup] at hcl
      | mdict d => simp [childLookup] at hcl

theorem getSub_replaceAt_self {k : List String} :
    ∀ {m x m' : Module}, replaceAt m k x = some m' → getSub m' k = some x := by
  induction k with
  | nil =>
    intro m x m' h
    simp only [replaceAt, Option.some_inj] at h
    subst h; rfl
  | cons n rest ih =>
    intro m x m' h
    simp only [replaceAt] at h
    cases hcl : childLookup m n with
    | none => simp [hcl] at h
    | some c =>
      simp only [hcl, Option.some_bind] at h
      cases hra : replaceAt c rest x with
      | none => simp [hra] at h
      | some c' =>
        simp only [hra, Option.some_bind] at h
        cases m with
        | plain ps cs =>
          simp only [setChild, Option.map_eq_some'] at h
          obtain ⟨cs', hcs', rfl⟩ := h
          simp [getSub, childLookup, lookupC_setC_self hcs', ih hra]
        | boft bd base => simp [setChild] at h
        | linear ld => simp [setChild] at h
        | pdict ps => simp [setChild] at h
        | mdict d => simp [setChild] at h

/-- Keys that branch apart at some component. -/
def divergeB : List String → List String → Bool
  | [], _ => false
  | _, [] => false
  | a :: k, b :: q => if a = b then divergeB k q else true

theorem keyTri (k : List String) :
    ∀ q : List String,
      divergeB k q = true ∨ (∃ s, q = k ++ s) ∨ (∃ s, k = q ++ s) := by
  induction k with
  | nil => intro q; exact Or.inr (Or.inl ⟨q, rfl⟩)
  | cons a k' ih =>
    intro q
    cases q with
    | nil => exact Or.inr (Or.inr ⟨a :: k', rfl⟩)
    | cons b q' =>
      by_cases hab : a = b
      · subst hab
        rcases ih q' with h | ⟨s, hs⟩ | ⟨s, hs⟩
        · exact Or.inl (by simp [divergeB, h])
        · exact Or.inr (Or.inl ⟨s, by simp [hs]⟩)
        · exact Or.inr (Or.inr ⟨s, by simp [hs]⟩)
      · exact Or.inl (by simp [divergeB, if_neg hab])

/-- Replacement at `k` does not change navigation along a diverging key. -/
theorem getSub_replaceAt_diverge {k : List String} :
    ∀ {m x m' : Module} {q : List String}, replaceAt m k x = some m' →
      divergeB k q = true → getSub m' q = getSub m q := by
  induction k with
  | nil => intro m x m' q _ hd; simp [divergeB] at hd
  | cons a k' ih =>
    intro m x m' q h hd
    cases q with
    | nil => simp [divergeB] at hd
    | cons b q' =>
      simp only [replaceAt] at h
      cases hcl : childLookup m a with
      | none => simp [hcl] at h
      | some c =>
        simp only [hcl, Option.some_bind] at h
        cases hra : replaceAt c k' x with
        | none => simp [hra] at h
        | some c' =>
          simp only [hra, Option.some_bind] at h
          cases m with
          | plain ps cs =>
            simp only [setChild, Option.map_eq_some'] at h
            obtain ⟨cs', hcs', rfl⟩ := h
            by_cases hab : a = b
            · subst hab
              simp only [divergeB, if_pos rfl] at hd
              have hl : lookupC cs a = some c := hcl
              have hl' : lookupC cs' a = some c' := lookupC_setC_self hcs'
              simp only [getSub, childLookup, hl', hl, Option.some_bind]
              exact ih hra hd
            · have hbne : b ≠ a := fun hc => hab hc.symm
              simp [getSub, childLookup, lookupC_setC_ne hcs' hbne]
          | boft bd base => simp [setChild] at h
          | linear ld => simp [setChild] at h
          | pdict ps => simp [setChild] at h
          | mdict d => simp [setChild] at h

/-! Characterising `named_parameters` after each marking pass. -/

mutual
theorem npb_markBySub (sub : String) (onHit onMiss : Tensor → Tensor) :
    ∀ (m : Module) (seen : Bool),
      npb (markBySub sub onHit onMiss seen m) =
        (npb m).map (fun e =>
          (e.1, e.2.1, if seen || keyHas e.1 sub then onHit e.2.2 else onMiss e.2.2))
  | .linear ld, seen => by
    cases hb : ld.bias <;> simp [npb, markBySub, hitT, hb]
  | .boft bd base, seen => by
    cases hb : base.bias <;>
      simp [npb, markBySub, hitT, hb, List.map_map, Function.comp, Function.comp_def]
  | .pdict ps, seen => by
    simp [npb, markBySub, hitT, List.map_map, Function.comp, Function.comp_def]
  | .mdict d, seen => by simp [npb, markBySub]
  | .plain ps cs, seen => by
    simp [npb, markBySub, hitT, List.map_map, Function.comp, Function.comp_def,
      npbC_markC sub onHit onMiss cs seen]

theorem npbC_markC (sub : String) (onHit onMiss : Tensor → Tensor) :
    ∀ (cs : Children) (seen : Bool),
      npbC (markC sub onHit onMiss seen cs) =
        (npbC cs).map (fun e =>
          (e.1, e.2.1, if seen || keyHas e.1 sub then onHit e.2.2 else onMiss e.2.2))
  | .nil, seen => by simp [npbC, markC]
  | .cons n m r, seen => by
    simp [npbC, markC, npb_markBySub sub onHit onMiss m (seen || strHasSub n sub),
      npbC_markC sub onHit onMiss r seen, List.map_map, Function.comp, Function.comp_def,
      keyHas, Bool.or_assoc]
end

mutual
theorem npb_boftOnly : ∀ m : Module,
    npb (boftOnly m) =
      (npb m).map (fun e => (e.1, e.2.1, if e.2.1 then setRG true e.2.2 else e.2.2))
  | .linear ld => by cases hb : ld.bias <;> simp [npb, boftOnly, hb]
  | .boft bd base => by
    cases hb : base.bias <;>
      simp [npb, boftOnly, hb, List.map_map, Function.comp, Function.comp_def]
  | .pdict ps => by simp [npb, boftOnly, List.map_map, Function.comp, Function.comp_def]
  | .mdict d => by simp [npb, boftOnly]
  | .plain ps cs => by
    simp [npb, boftOnly, List.map_map, Function.comp, Function.comp_def, npbC_boftOnlyC cs]

theorem npbC_boftOnlyC : ∀ cs : Children,
    npbC (boftOnlyC cs) =
      (npbC cs).map (fun e => (e.1, e.2.1, if e.2.1 then setRG true e.2.2 else e.2.2))
  | .nil => by simp [npbC, boftOnlyC]
  | .cons n m r => by
    simp [npbC, boftOnlyC, npb_boftOnly m, npbC_boftOnlyC r, List.map_map, Function.comp, Function.comp_def]
end

mutual
theorem npb_mapTensors (f : Tensor → Tensor) :
    ∀ m : Module, npb (mapTensors f m) = (npb m).map (fun e => (e.1, e.2.1, f e.2.2))
  | .linear ld => by cases hb : ld.bias <;> simp [npb, mapTensors, mapLD, hb]
  | .boft bd base => by
    cases hb : base.bias <;>
      simp [npb, mapTensors, mapLD, mapBD, hb, List.map_map, Function.comp, Function.comp_def]
  | .pdict ps => by simp [npb, mapTensors, List.map_map, Function.comp, Function.comp_def]
  | .mdict d => by simp [npb, mapTensors]
  | .plain ps cs => by
    simp [npb, mapTensors, List.map_map, Function.comp, Function.comp_def, npbC_mapTC f cs]

theorem npbC_mapTC (f : Tensor → Tensor) :
    ∀ cs : Children, npbC (mapTC f cs) = (npbC cs).map (fun e => (e.1, e.2.1, f e.2.2))
  | .nil => by simp [npbC, mapTC]
  | .cons n m r => by
    simp [npbC, mapTC, npb_mapTensors f m, npbC_mapTC f r, List.map_map, Function.comp, Function.comp_def]
end

theorem allTensors_mapTensors (f : Tensor → Tensor) (m : Module) :
    allTensors (mapTensors f m) = (allTensors m).map f := by
  simp [allTensors, npb_mapTensors, List.map_map, Function.comp, Function.comp_def]

/-- New trainable flags can only come from earlier trainable flags or from a
bias policy of one of the processed active adapters. -/
theorem markFold_sources (cfgs : List (String × BOFTConfig)) :
    ∀ (l : List String) (m m' : Module), markFold cfgs l m = .ok m' →
      ∀ e ∈ npb m', e.2.2.requiresGrad = true →
        (∃ t : Tensor, (e.1, e.2.1, t) ∈ npb m ∧ t.requiresGrad = true) ∨
        (∃ a ∈ l, ∃ c, lookupCfg cfgs a = some c ∧ c.bias = "all" ∧ keyHas e.1 "bias" = true) ∨
        (∃ a ∈ l, ∃ c, lookupCfg cfgs a = some c ∧ c.bias = "boft_only" ∧ e.2.1 = true) := by
  intro l
  induction l with
  | nil =>
    intro m m' h e he hrg
    simp only [markFold, Except.ok.injEq] at h
    subst h
    exact Or.inl ⟨e.2.2, by simpa using he, hrg⟩
  | cons a rest ih =>
    intro m m' h e he hrg
    simp only [markFold] at h
    cases hcfg : lookupCfg cfgs a with
    | none => rw [hcfg] at h; simp at h
    | some c =>
      simp only [hcfg] at h
      cases happ : applyBias m c.bias with
      | error err => simp only [happ] at h; simp at h
      | ok m1 =>
        simp only [happ] at h
        have IH := ih m1 m' h e he hrg
        unfold applyBias at happ
        by_cases hb1 : c.bias = "none"
        · rw [if_pos hb1, Except.ok.injEq] at happ
          subst happ
          rcases IH with h1 | ⟨a', ha', hrest⟩ | ⟨a', ha', hrest⟩
          · exact Or.inl h1
          · exact Or.inr (Or.inl ⟨a', List.mem_cons_of_mem _ ha', hrest⟩)
          · exact Or.inr (Or.inr ⟨a', List.mem_cons_of_mem _ ha', hrest⟩)
        · rw [if_neg hb1] at happ
          by_cases hb2 : c.bias = "all"
          · rw [if_pos hb2, Except.ok.injEq] at happ
            rcases IH with ⟨t1, hmem, hrg1⟩ | ⟨a', ha', hrest⟩ | ⟨a', ha', hrest⟩
            · rw [← happ, npb_markBySub, List.mem_map] at hmem
              obtain ⟨e0, he0, heq⟩ := hmem
              simp only [Bool.false_or, Prod.mk.injEq] at heq
              obtain ⟨h1, h2, h3⟩ := heq
              by_cases hk : keyHas e0.1 "bias" = true
              · refine Or.inr (Or.inl ⟨a, List.mem_cons_self _ _, c, hcfg, hb2, ?_⟩)
                rw [← h1]; exact hk
              · rw [if_neg hk] at h3
                subst h3
                exact Or.inl ⟨e0.2.2, by rw [← h1, ← h2]; simpa using he0, hrg1⟩
            · exact Or.inr (Or.inl ⟨a', List.mem_cons_of_mem _ ha', hrest⟩)
            · exact Or.inr (Or.inr ⟨a', List.mem_cons_of_mem _ ha', hrest⟩)
          · rw [if_neg hb2] at happ
            by_cases hb3 : c.bias = "boft_only"
            · rw [if_pos hb3, Except.ok.injEq] at happ
              rcases IH with ⟨t1, hmem, hrg1⟩ | ⟨a', ha', hrest⟩ | ⟨a', ha', hrest⟩
              · rw [← happ, npb_boftOnly, List.mem_map] at hmem
                obtain ⟨e0, he0, heq⟩ := hmem
                simp only [Prod.mk.injEq] at heq
                obtain ⟨h1, h2, h3⟩ := heq
                by_cases hk : e0.2.1 = true
                · refine Or.inr (Or.inr ⟨a, List.mem_cons_self _ _, c, hcfg, hb3, ?_⟩)
                  rw [← h2]; exact hk
                · rw [if_neg hk] at h3
                  subst h3
                  exact Or.inl ⟨e0.2.2, by rw [← h1, ← h2]; simpa using he0, hrg1⟩
              · exact Or.inr (Or.inl ⟨a', List.mem_cons_of_mem _ ha', hrest⟩)
              · exact Or.inr (Or.inr ⟨a', List.mem_cons_of_mem _ ha', hrest⟩)
            · rw [if_neg hb3] at happ
              simp at happ

/-- C2: after `_mark_only_adapters_as_trainable` succeeds, every parameter
with `requires_grad = True` either has `boft_` in its name (an injected
adapter parameter), or is a `bias`-named parameter permitted by an active
adapter's `"all"` bias policy, or is the bias of a `BOFTLayer` permitted by
an active adapter's `"boft_only"` policy; in particular every base-model
weight is frozen. -/
theorem mark_only_adapters_freezes_nonadapters (cfgs : List (String × BOFTConfig))
    (actives : List String) (m m' : Module)
    (h : mark_only_adapters_as_trainable cfgs actives m = .ok m') :
    ∀ e ∈ npb m', e.2.2.requiresGrad = true →
      keyHas e.1 "boft_" = true ∨
      (∃ a ∈ actives, ∃ c, lookupCfg cfgs a = some c ∧ c.bias = "all" ∧ keyHas e.1 "bias" = true) ∨
      (∃ a ∈ actives, ∃ c, lookupCfg cfgs a = some c ∧ c.bias = "boft_only" ∧ e.2.1 = true) := by
  intro e he hrg
  unfold mark_only_adapters_as_trainable at h
  rcases markFold_sources cfgs actives (markStep1 m) m' h e he hrg with
    ⟨t, hmem, hrg1⟩ | h2 | h3
  · left
    rw [markStep1, npb_markBySub, List.mem_map] at hmem
    obtain ⟨e0, he0, heq⟩ := hmem
    simp only [Bool.false_or, Prod.mk.injEq] at heq
    obtain ⟨h1, _, h3⟩ := heq
    by_cases hk : keyHas e0.1 "boft_" = true
    · rw [← h1]; exact hk
    · exfalso
      rw [if_neg hk] at h3
      rw [← h3] at hrg1
      simp [setRG] at hrg1
  · exact Or.inr (Or.inl h2)
  · exact Or.inr (Or.inr h3)

/-- C7: the bias policy is applied per active adapter: `"none"` changes
nothing beyond the freezing pass, `"all"` sets `requires_grad` exactly on the
parameters whose name contains `bias`, `"boft_only"` sets it exactly on the
biases of `BOFTLayer` modules that have one, and any other value raises
`NotImplementedError`. -/
theorem bias_policy_cases (cfgs : List (String × BOFTConfig)) (a : String) (c : BOFTConfig)
    (m : Module) (hc : lookupCfg cfgs a = some c) :
    (c.bias = "none" → mark_only_adapters_as_trainable cfgs [a] m = .ok (markStep1 m)) ∧
    (c.bias = "all" →
      ∃ m', mark_only_adapters_as_trainable cfgs [a] m = .ok m' ∧
        npb m' = (npb (markStep1 m)).map
          (fun e => (e.1, e.2.1, if keyHas e.1 "bias" then setRG true e.2.2 else e.2.2))) ∧
    (c.bias = "boft_only" →
      ∃ m', mark_only_adapters_as_trainable cfgs [a] m = .ok m' ∧
        npb m' = (npb (markStep1 m)).map
          (fun e => (e.1, e.2.1, if e.2.1 then setRG true e.2.2 else e.2.2))) ∧
    (c.bias ≠ "none" → c.bias ≠ "all" → c.bias ≠ "boft_only" →
      mark_only_adapters_as_trainable cfgs [a] m =
        .error (.notImplementedError ("Requested bias: " ++ c.bias ++ ", is not implemented."))) := by
  refine ⟨?_, ?_, ?_, ?_⟩
  · intro h
    simp [mark_only_adapters_as_trainable, markFold, hc, applyBias, h]
  · intro h
    refine ⟨markBySub "bias" (setRG true) id false (markStep1 m), ?_, ?_⟩
    · simp [mark_only_adapters_as_trainable, markFold, hc, applyBias, h]
    · simpa [id] using npb_markBySub "bias" (setRG true) id (markStep1 m) false
  · intro h
    refine ⟨boftOnly (markStep1 m), ?_, ?_⟩
    · simp [mark_only_adapters_as_trainable, markFold, hc, applyBias, h]
    · exact npb_boftOnly (markStep1 m)
  · intro h1 h2 h3
    simp [mark_only_adapters_as_trainable, markFold, hc, applyBias, h1, h2, h3]

/-! The unload/merge loop. -/

theorem stepLinear_shape (mg : Bool) (bd : BoftData) (base : LinearData) :
    ∃ ld : LinearData, stepLinear mg bd base = .linear ld ∧
      ld.inFeatures = base.inFeatures ∧ ld.outFeatures = base.outFeatures ∧
      ld.bias.isSome = base.bias.isSome ∧
      ld.weight = (if mg then foldT base.weight else base.weight) ∧
      ld.state = base.state ∧
      ld.bias.map Tensor.tid = base.bias.map Tensor.tid ∧
      (base.state = none → ld.bias = base.bias) := by
  obtain ⟨wi, wo, w, bias, st⟩ := base
  cases st <;> cases bias <;> cases mg <;>
    refine ⟨_, rfl, ?_, ?_, ?_, ?_, ?_, ?_, ?_⟩ <;>
      simp [stepLinear, replace_module_transform, copyWeightBias, weightOf, hasBiasAttr,
        biasOf, setWeightBias, stateOf, mergeIf, foldT, freshLinear, dispatchBoft,
        mapTensors, mapLD, setDev, setState, weightDev, freshTensor]

theorem unloadStep_getSub_self (mg : Bool) {m : Module} {k : List String} {bd : BoftData}
    {base : LinearData} (hk : k ≠ []) (h : getSub m k = some (.boft bd base)) :
    getSub (unloadStep mg m k) k = some (stepLinear mg bd base) := by
  obtain ⟨m', hm'⟩ := replaceAt_some h rfl (stepLinear mg bd base)
  cases k with
  | nil => exact absurd rfl hk
  | cons n rest =>
    simp only [unloadStep, h]
    rw [hm']
    simp only [Option.getD_some]
    exact getSub_replaceAt_self hm'

theorem unloadStep_preserve_boft (mg : Bool) {m : Module} {k q : List String} {bd : BoftData}
    {base : LinearData} (hq : getSub m q = some (.boft bd base)) (hne : q ≠ k) :
    getSub (unloadStep mg m k) q = some (.boft bd base) := by
  cases hk : getSub m k with
  | none => simpa [unloadStep, hk] using hq
  | some t =>
    cases t with
    | boft bd0 base0 =>
      cases k with
      | nil =>
        have hm : m = .boft bd0 base0 := by simpa [getSub] using hk
        subst hm
        cases q with
        | nil => exact absurd rfl hne
        | cons b q' =>
          exfalso
          have := getSub_boft_not_torchLinear (s := b :: q') (by simp) hq
          simp [isTorchLinearB] at this
      | cons n k' =>
        simp only [unloadStep, hk]
        obtain ⟨m', hm'⟩ := replaceAt_some hk rfl (stepLinear mg bd0 base0)
        rw [hm']
        simp only [Option.getD_some]
        rcases keyTri (n :: k') q with hd | ⟨s, hs⟩ | ⟨s, hs⟩
        · rw [getSub_replaceAt_diverge hm' hd]; exact hq
        · subst hs
          cases s with
          | nil => simp at hne
          | cons s1 s2 =>
            exfalso
            rw [getSub_append, hk] at hq
            simp only [Option.some_bind] at hq
            have := getSub_boft_not_torchLinear (s := s1 :: s2) (by simp) hq
            simp [isTorchLinearB] at this
        · cases s with
          | nil =>
            rw [List.append_nil] at hs
            exact absurd hs.symm hne
          | cons s1 s2 =>
            exfalso
            rw [hs, getSub_append, hq] at hk
            simp only [Option.some_bind] at hk
            have := getSub_boft_not_torchLinear (s := s1 :: s2) (by simp) hk
            simp [isTorchLinearB] at this
    | linear ld => simpa [unloadStep, hk] using hq
    | pdict ps => simpa [unloadStep, hk] using hq
    | mdict d => simpa [unloadStep, hk] using hq
    | plain ps cs => simpa [unloadStep, hk] using hq

theorem unloadStep_preserve_linear (mg : Bool) {m : Module} {k q : List String}
    {ld : LinearData} (hq : getSub m q = some (.linear ld)) :
    getSub (unloadStep mg m k) q = some (.linear ld) := by
  cases hk : getSub m k with
  | none => simpa [unloadStep, hk] using hq
  | some t =>
    cases t with
    | boft bd0 base0 =>
      cases k with
      | nil =>
        have hm : m = .boft bd0 base0 := by simpa [getSub] using hk
        subst hm
        cases q with
        | nil => simp [getSub] at hq
        | cons b q' =>
          exfalso
          have := getSub_boft_not_torchLinear (s := b :: q') (by simp) hq
          simp [isTorchLinearB] at this
      | cons n k' =>
        simp only [unloadStep, hk]
        obtain ⟨m', hm'⟩ := replaceAt_some hk rfl (stepLinear mg bd0 base0)
        rw [hm']
        simp only [Option.getD_some]
        rcases keyTri (n :: k') q with hd | ⟨s, hs⟩ | ⟨s, hs⟩
        · rw [getSub_replaceAt_diverge hm' hd]; exact hq
        · subst hs
          cases s with
          | nil =>
            exfalso
            rw [List.append_nil] at hq
            rw [hk] at hq
            simp at hq
          | cons s1 s2 =>
            exfalso
            rw [getSub_append, hk] at hq
            simp only [Option.some_bind] at hq
            have := getSub_boft_not_torchLinear (s := s1 :: s2) (by simp) hq
            simp [isTorchLinearB] at this
        · cases s with
          | nil =>
            exfalso
            rw [List.append_nil] at hs
            rw [← hs] at hq
            rw [hq] at hk
            simp at hk
          | cons s1 s2 =>
            exfalso
            rw [hs, getSub_append, hq] at hk
            simp only [Option.some_bind] at hk
            simp [getSub, childLookup] at hk
    | linear ld2 => simpa [unloadStep, hk] using hq
    | pdict ps => simpa [unloadStep, hk] using hq
    | mdict d => simpa [unloadStep, hk] using hq
    | plain ps cs => simpa [unloadStep, hk] using hq

theorem foldl_unloadStep_preserve_linear (mg : Bool) :
    ∀ (ks : List (List String)) (m : Module) {q : List String} {ld : LinearData},
      getSub m q = some (.linear ld) →
      getSub (ks.foldl (unloadStep mg) m) q = some (.linear ld) := by
  intro ks
  induction ks with
  | nil => intro m q ld hq; simpa using hq
  | cons k rest ih =>
    intro m q ld hq
    simp only [List.foldl_cons]
    exact ih _ (unloadStep_preserve_linear mg hq)

/-- Every wrapper sitting at a processed key is replaced by its unloaded
Linear by the end of the loop. -/
theorem unloadFold (mg : Bool) :
    ∀ (ks : List (List String)) (m : Module) {q : List String} {bd : BoftData}
      {base : LinearData},
      q ∈ ks → q ≠ [] → getSub m q = some (.boft bd base) →
      getSub (ks.foldl (unloadStep mg) m) q = some (stepLinear mg bd base) := by
  intro ks
  induction ks with
  | nil => intro m q bd base hmem; simp at hmem
  | cons k rest ih =>
    intro m q bd base hmem hq0 hq
    simp only [List.foldl_cons]
    by_cases hqk : q = k
    · subst hqk
      have h1 := unloadStep_getSub_self mg hq0 hq
      obtain ⟨ld, hld, _⟩ := stepLinear_shape mg bd base
      rw [hld] at h1 ⊢
      exact foldl_unloadStep_preserve_linear mg rest _ h1
    · have h1 := unloadStep_preserve_boft mg hq hqk
      have hmem' : q ∈ rest := by
        rcases List.mem_cons.mp hmem with h | h
        · exact absurd h hqk
        · exact h
      exact ih _ hmem' hq0 h1

theorem mem_keysC_of_lookupC {cs : Children} {n : String} {c : Module} {rest : List String}
    (hl : lookupC cs n = some c) (hr : rest ∈ namedKeys c) : (n :: rest) ∈ keysC cs := by
  induction cs using childrenInd with
  | h0 => simp [lookupC] at hl
  | h1 n0 m0 r ih =>
    by_cases hn : n0 = n
    · subst hn
      have hl' : m0 = c := by simpa [lookupC] using hl
      subst hl'
      simp only [keysC]
      exact List.mem_append.mpr (Or.inl (List.mem_map.mpr ⟨rest, hr, rfl⟩))
    · simp only [lookupC, if_neg hn] at hl
      simp only [keysC]
      exact List.mem_append.mpr (Or.inr (ih hl))

/-- Every navigable path is listed by `named_modules`. -/
theorem mem_namedKeys_of_getSub :
    ∀ (k : List String) (m : Module) {t : Module}, getSub m k = some t → k ∈ namedKeys m := by
  intro k
  induction k with
  | nil => intro m t h; cases m <;> simp [namedKeys]
  | cons n rest ih =>
    intro m t h
    simp only [getSub] at h
    cases hcl : childLookup m n with
    | none => simp [hcl] at h
    | some c =>
      simp only [hcl, Option.some_bind] at h
      cases m with
      | plain ps cs =>
        have hm := ih c h
        simp only [namedKeys]
        exact List.mem_cons_of_mem _ (mem_keysC_of_lookupC hcl hm)
      | boft bd base =>
        by_cases h1 : n = "boft_R"
        · subst h1
          have hc : Module.pdict bd.boft_R = c := by simpa [childLookup] using hcl
          subst hc
          cases rest with
          | nil => simp [namedKeys]
          | cons r1 r2 => simp [getSub, childLookup] at h
        · by_cases h2 : n = "boft_s"
          · subst h2
            have hc : Module.pdict bd.boft_s = c := by simpa [childLookup, h1] using hcl
            subst hc
            cases rest with
            | nil => simp [namedKeys]
            | cons r1 r2 => simp [getSub, childLookup] at h
          · by_cases h3 : n = "boft_dropout"
            · subst h3
              have hc : Module.mdict bd.boft_dropout = c := by simpa [childLookup, h1, h2] using hcl
              subst hc
              cases rest with
              | nil => simp [namedKeys]
              | cons r1 r2 => simp [getSub, childLookup] at h
            · simp [childLookup, h1, h2, h3] at hcl
      | linear ld => simp [childLookup] at hcl
      | pdict ps => simp [childLookup] at hcl
      | mdict d => simp [childLookup] at hcl

/-- C3 (amended): `merge_and_unload` merges and replaces every BOFT-wrapped
proper submodule whose `named_modules` key does not contain the substring
`boft`: afterwards that key holds a plain `torch.nn.Linear` with the same
`in_features`, `out_features` and bias presence, carrying the merged weight
and the original bias tensor.  (Wrapped layers at keys containing `boft`,
and a wrapper at the root, are skipped by the key filter at line 272, see the
counterexample.) -/
theorem merge_and_unload_replaces_nonboft_keys (m : Module) (q : List String)
    (bd : BoftData) (base : LinearData) (hq0 : q ≠ [])
    (hkey : keyHas q "boft" = false) (hb : getSub m q = some (.boft bd base)) :
    ∃ ld : LinearData, getSub (merge_and_unload m) q = some (.linear ld) ∧
      ld.inFeatures = base.inFeatures ∧ ld.outFeatures = base.outFeatures ∧
      ld.bias.isSome = base.bias.isSome ∧ ld.weight = foldT base.weight ∧
      ld.bias.map Tensor.tid = base.bias.map Tensor.tid := by
  have hmemK : q ∈ namedKeys m := mem_namedKeys_of_getSub q m hb
  have hmem : q ∈ unloadKeys m := by
    simp [unloadKeys, List.mem_filter, hmemK, hkey]
  have h := unloadFold true (unloadKeys m) m hmem hq0 hb
  obtain ⟨ld, hld, h1, h2, h3, h4, h5, h6, h7⟩ := stepLinear_shape true bd base
  refine ⟨ld, ?_, h1, h2, h3, by simpa using h4, h6⟩
  rw [merge_and_unload, unloadAndOptionallyMerge, ← hld]
  exact h

/-- What `_replace_module` makes of a freshly built wrapper installed over a
plain Linear child. -/
theorem installed_wrapper (ld : LinearData) (nbd : BoftData) (fresh : LinearData)
    (hfs : fresh.state = none) :
    ∃ bd' base', replace_module_transform (.linear ld) (.boft nbd fresh) = .boft bd' base' ∧
      base'.weight = ld.weight ∧ base'.inFeatures = fresh.inFeatures ∧
      base'.outFeatures = fresh.outFeatures ∧ base'.state = ld.state ∧
      base'.bias.map Tensor.tid = ld.bias.map Tensor.tid ∧
      (ld.state = none → base'.bias = ld.bias) := by
  obtain ⟨wi, wo, w, bias, st⟩ := ld
  obtain ⟨fi, fo, fw, fbias, fst⟩ := fresh
  simp only at hfs
  subst hfs
  cases st <;> cases bias <;>
    refine ⟨_, _, rfl, ?_, ?_, ?_, ?_, ?_, ?_⟩ <;>
      simp [replace_module_transform, copyWeightBias, weightOf, hasBiasAttr, biasOf,
        setWeightBias, stateOf, dispatchBoft, mapTensors, mapLD, setDev, setState,
        weightDev]

/-- Injecting over a plain Linear target installs a wrapper whose base data
mirrors the original layer (the weight is the original tensor, copied by
reference in `_replace_module`). -/
theorem inject_linear_installs (cfg : BOFTConfig) (adapter active : String) (m : Module)
    (q : List String) (ld : LinearData) (hl : getSub m q = some (.linear ld))
    {m₁ : Module} {cfg' : BOFTConfig} {ws : List String}
    (hinj : create_and_replaceAt cfg adapter active m q = .ok (m₁, cfg', ws)) :
    ∃ bd' base', getSub m₁ q = some (.boft bd' base') ∧
      base'.weight = ld.weight ∧ base'.inFeatures = ld.inFeatures ∧
      base'.outFeatures = ld.outFeatures ∧ base'.state = ld.state ∧
      base'.bias.map Tensor.tid = ld.bias.map Tensor.tid ∧
      (ld.state = none → base'.bias = ld.bias) := by
  simp only [create_and_replaceAt, hl, create_new_module, isTorchLinearB, featuresOf,
    if_true, mapTensors] at hinj
  by_cases had : adapter = active
  · simp only [if_pos had] at hinj
    obtain ⟨bd', base', hins, hp1, hp2, hp3, hp4, hp5, hp6⟩ :=
      installed_wrapper ld
        (newBoftData adapter (if cfg.fan_in_fan_out = true then { cfg with fan_in_fan_out := false } else cfg))
        (freshLinear ld.inFeatures ld.outFeatures
          (hasBiasAttr (Module.linear ld) && (biasOf (Module.linear ld)).isSome)) rfl
    rw [hins] at hinj
    cases hrep : replaceAt m q (Module.boft bd' base') with
    | none => rw [hrep] at hinj; simp at hinj
    | some mm =>
      rw [hrep] at hinj
      simp only [Except.ok.injEq, Prod.mk.injEq] at hinj
      exact ⟨bd', base', hinj.1 ▸ getSub_replaceAt_self hrep, hp1, hp2, hp3, hp4, hp5, hp6⟩
  · simp only [if_neg had, mapTensors] at hinj
    obtain ⟨bd', base', hins, hp1, hp2, hp3, hp4, hp5, hp6⟩ :=
      installed_wrapper ld
        (mapBD (setRG false)
          (newBoftData adapter (if cfg.fan_in_fan_out = true then { cfg with fan_in_fan_out := false } else cfg)))
        (mapLD (setRG false)
          (freshLinear ld.inFeatures ld.outFeatures
            (hasBiasAttr (Module.linear ld) && (biasOf (Module.linear ld)).isSome))) rfl
    rw [hins] at hinj
    cases hrep : replaceAt m q (Module.boft bd' base') with
    | none => rw [hrep] at hinj; simp at hinj
    | some mm =>
      rw [hrep] at hinj
      simp only [Except.ok.injEq, Prod.mk.injEq] at hinj
      exact ⟨bd', base', hinj.1 ▸ getSub_replaceAt_self hrep, hp1, hp2, hp3, hp4, hp5, hp6⟩

/-- C4 (amended): injecting an adapter over a plain Linear at a proper
submodule key that does not contain `boft`, then calling `unload()`, puts a
plain `torch.nn.Linear` back at that key whose weight is exactly the original
weight tensor, whose bias is the original bias tensor (tensor identity; its
fields are untouched whenever the layer carries no quantization state), and
whose features and state match the original.  (The no-`BOFTLayer`-remains
half of the claim fails for keys containing `boft`, see the
counterexample.) -/
theorem unload_round_trip (cfg : BOFTConfig) (adapter : String) (m : Module)
    (q : List String) (ld : LinearData) (hq0 : q ≠ [])
    (hkey : keyHas q "boft" = false) (hl : getSub m q = some (.linear ld))
    {m₁ : Module} {cfg' : BOFTConfig} {ws : List String}
    (hinj : create_and_replaceAt cfg adapter adapter m q = .ok (m₁, cfg', ws)) :
    ∃ ld' : LinearData, getSub (unload m₁) q = some (.linear ld') ∧
      ld'.inFeatures = ld.inFeatures ∧ ld'.outFeatures = ld.outFeatures ∧
      ld'.weight = ld.weight ∧ ld'.state = ld.state ∧
      ld'.bias.map Tensor.tid = ld.bias.map Tensor.tid ∧
      (ld.state = none → ld'.bias = ld.bias) := by
  obtain ⟨bd', base', hget1, hp1, hp2, hp3, hp4, hp5, hp6⟩ :=
    inject_linear_installs cfg adapter adapter m q ld hl hinj
  have hmemK : q ∈ namedKeys m₁ := mem_namedKeys_of_getSub q m₁ hget1
  have hmem : q ∈ unloadKeys m₁ := by
    simp [unloadKeys, List.mem_filter, hmemK, hkey]
  have h := unloadFold false (unloadKeys m₁) m₁ hmem hq0 hget1
  obtain ⟨ld', hld, h1, h2, h3, h4, h5, h6, h7⟩ := stepLinear_shape false bd' base'
  refine ⟨ld', ?_, by rw [h1, hp2], by rw [h2, hp3], by simpa [hp1] using h4,
    by rw [h5, hp4], by rw [h6, hp5], ?_⟩
  · rw [unload, unloadAndOptionallyMerge, ← hld]
    exact h
  · intro hn
    have hbs : base'.state = none := by rw [hp4, hn]
    rw [h7 hbs, hp6 hn]

theorem create_and_replace_linear_ne_error (cfg : BOFTConfig) (adapter active : String)
    (m : Module) (k : List String) (ld : LinearData)
    (hb : getSub m k = some (.linear ld)) (e : PErr) :
    create_and_replaceAt cfg adapter active m k ≠ .error e := by
  intro hres
  simp only [create_and_replaceAt, hb, create_new_module, isTorchLinearB, if_true,
    featuresOf, mapTensors] at hres
  split at hres
  · simp at hres
  · next heq =>
    have h2 := replaceAt_some (k := k) hb rfl
    obtain ⟨mm, hmm⟩ := h2 _
    rw [heq] at hmm
    exact absurd hmm (by simp)

/-- C1: `_create_and_replace` updates an existing wrapper in place (adding the
named adapter via `update_layer`, keeping the base layer), and wraps any other
matched Linear in a fresh adapter module installed in the parent: a matched
layer is never wrapped a second time. -/
theorem create_and_replace_branching (cfg : BOFTConfig) (adapter active : String)
    (m : Module) (k : List String) (_hk : k ≠ []) :
    (∀ bd base, getSub m k = some (.boft bd base) →
      ∃ m', create_and_replaceAt cfg adapter active m k = .ok (m', cfg, []) ∧
        getSub m' k = some (.boft (update_layer bd adapter cfg) base) ∧
        lookupA (update_layer bd adapter cfg).boft_block_size adapter =
          some cfg.boft_block_size) ∧
    (∀ ld, getSub m k = some (.linear ld) →
      ∃ m' cfg' ws bd' base',
        create_and_replaceAt cfg adapter active m k = .ok (m', cfg', ws) ∧
        getSub m' k = some (.boft bd' base') ∧ base'.weight = ld.weight ∧
        base'.inFeatures = ld.inFeatures ∧ base'.outFeatures = ld.outFeatures) := by
  constructor
  · intro bd base hb
    obtain ⟨m', hm'⟩ := replaceAt_some hb rfl (.boft (update_layer bd adapter cfg) base)
    refine ⟨m', ?_, getSub_replaceAt_self hm', lookupA_upsert_self _ _ _⟩
    simp only [create_and_replaceAt, hb, hm']
  · intro ld hb
    cases hres : create_and_replaceAt cfg adapter active m k with
    | error e => exact absurd hres (create_and_replace_linear_ne_error cfg adapter active m k ld hb e)
    | ok trip =>
      obtain ⟨m', cfg', ws⟩ := trip
      obtain ⟨bd', base', hget, hp1, hp2, hp3, _, _, _⟩ :=
        inject_linear_installs cfg adapter active m k ld hb hres
      exact ⟨m', cfg', ws, bd', base', rfl, hget, hp1, hp2, hp3⟩

/-- C5: only `torch.nn.Linear` targets can be wrapped: a matched target that
is neither a `BOFTLayer` nor a `torch.nn.Linear` makes `_create_new_module`
raise `ValueError` and nothing is installed, while a Linear target under a
config with `fan_in_fan_out = True` produces a warning and the flag is forced
to `False` on the config and on the module built. -/
theorem create_new_module_only_linear (cfg : BOFTConfig) (adapter active : String)
    (m : Module) (k : List String) (target : Module)
    (hget : getSub m k = some target) :
    (isBoftB target = false → isTorchLinearB target = false →
      create_and_replaceAt cfg adapter active m k = .error (.valueError unsupportedMsg)) ∧
    (∀ ld, target = .linear ld → cfg.fan_in_fan_out = true →
      (create_new_module cfg adapter target (hasBiasAttr target && (biasOf target).isSome) =
        .ok (.boft (newBoftData adapter { cfg with fan_in_fan_out := false })
              (freshLinear ld.inFeatures ld.outFeatures
                (hasBiasAttr target && (biasOf target).isSome)),
            { cfg with fan_in_fan_out := false }, [fanWarnMsg])) ∧
      (newBoftData adapter { cfg with fan_in_fan_out := false }).fan_in_fan_out = false ∧
      ∃ m' ws, create_and_replaceAt cfg adapter active m k =
          .ok (m', { cfg with fan_in_fan_out := false }, ws) ∧ ws = [fanWarnMsg]) := by
  constructor
  · intro hnb hnl
    cases target with
    | boft bd base => simp [isBoftB] at hnb
    | linear ld => simp [isTorchLinearB] at hnl
    | pdict ps =>
      simp [create_and_replaceAt, hget, create_new_module, isTorchLinearB]
    | mdict d =>
      simp [create_and_replaceAt, hget, create_new_module, isTorchLinearB]
    | plain ps cs =>
      simp [create_and_replaceAt, hget, create_new_module, isTorchLinearB]
  · intro ld hld hfan
    subst hld
    refine ⟨?_, rfl, ?_⟩
    · simp [create_new_module, isTorchLinearB, featuresOf, hfan, newBoftData]
    · cases hres : create_and_replaceAt cfg adapter active m k with
      | error e =>
        exact absurd hres (create_and_replace_linear_ne_error cfg adapter active m k ld hget e)
      | ok trip =>
        obtain ⟨m', cfg', ws⟩ := trip
        have h2 := hres
        simp only [create_and_replaceAt, hget, create_new_module, isTorchLinearB, if_true,
          featuresOf, mapTensors, hfan] at h2
        split at h2
        · simp only [Except.ok.injEq, Prod.mk.injEq] at h2
          obtain ⟨h3, h4, h5⟩ := h2
          subst h4
          subst h5
          exact ⟨m', [fanWarnMsg], rfl, rfl⟩
        · simp at h2

theorem allModules_ne_nil (m : Module) : allModules m ≠ [] := by
  cases m <;> simp [allModules]

/-- C8: `set_adapter` always raises `NameError` before touching any layer:
its loop body evaluates `isinstance(module, LoraLayer)` and the name
`LoraLayer` is bound nowhere in the module scope, while `model.modules()` is
never empty (it starts with the model itself). -/
theorem set_adapter_always_nameError (m : Module) (a : String) :
    set_adapter m a = .error (.nameError "LoraLayer") := by
  unfold set_adapter
  cases hm : allModules m with
  | nil => exact absurd hm (allModules_ne_nil m)
  | cons x xs =>
    have hc : moduleScopeNames.contains "LoraLayer" = false := by decide
    simp only [setAdapterLoop]
    rw [hc]
    simp

/-- C9: `_check_new_adapter_config` raises `ValueError` exactly when the
registry already holds more than one configuration and the new config's bias
is not `"none"`; the check reads nothing of the registered configs beyond
their number (two registries of equal size behave identically). -/
theorem check_new_adapter_config_spec (cfgs : List (String × BOFTConfig)) (c : BOFTConfig) :
    ((∃ e, check_new_adapter_config cfgs c = .error e) ↔
      1 < cfgs.length ∧ c.bias ≠ "none") ∧
    (∀ cfgs₂ : List (String × BOFTConfig), cfgs.length = cfgs₂.length →
      check_new_adapter_config cfgs c = check_new_adapter_config cfgs₂ c) := by
  constructor
  · constructor
    · rintro ⟨e, he⟩
      by_contra hc
      rw [check_new_adapter_config, if_neg hc] at he
      simp at he
    · intro hc
      exact ⟨_, by rw [check_new_adapter_config, if_pos hc]⟩
  · intro cfgs₂ hlen
    unfold check_new_adapter_config
    rw [hlen]

/-! Device dispatch (`_replace_module`, lines 163-173). -/

def allTC (cs : Children) : List Tensor :=
  (npbC cs).map (fun e => e.2.2)

theorem allTensors_plain (ps : List (String × Tensor)) (cs : Children) :
    allTensors (.plain ps cs) = ps.map (fun e => e.2) ++ allTC cs := by
  simp [allTensors, allTC, npb, List.map_map, Function.comp, Function.comp_def]

theorem allTC_cons (n : String) (m : Module) (r : Children) :
    allTC (.cons n m r) = allTensors m ++ allTC r := by
  simp [allTC, allTensors, npbC, List.map_append, List.map_map, Function.comp_def]

theorem allTensors_boft (bd : BoftData) (base : LinearData) :
    allTensors (.boft bd base) =
      base.weight ::
        ((match base.bias with | some b => [b] | none => []) ++
          bd.boft_R.map (fun e => e.2) ++ bd.boft_s.map (fun e => e.2)) := by
  cases hb : base.bias <;>
    simp [allTensors, npb, hb, List.map_map, List.map_append, Function.comp_def]

theorem allTensors_pdict (ps : List (String × Tensor)) :
    allTensors (.pdict ps) = ps.map (fun e => e.2) := by
  simp [allTensors, npb, List.map_map, Function.comp_def]

theorem allTensors_mdict (dd : List (String × Nat)) : allTensors (.mdict dd) = [] := by
  simp [allTensors, npb]

theorem mem_allTC_of_lookupC {cs : Children} {n : String} {c : Module}
    (hl : lookupC cs n = some c) : ∀ t ∈ allTensors c, t ∈ allTC cs := by
  induction cs using childrenInd with
  | h0 => simp [lookupC] at hl
  | h1 n0 m0 r ih =>
    intro t ht
    rw [allTC_cons]
    by_cases hn : n0 = n
    · have hm : m0 = c := by simpa [lookupC, hn] using hl
      subst hm
      exact List.mem_append.mpr (Or.inl ht)
    · simp only [lookupC, if_neg hn] at hl
      exact List.mem_append.mpr (Or.inr (ih hl t ht))

theorem mem_allTensors_of_childLookup {m : Module} {n : String} {c : Module}
    (hl : childLookup m n = some c) : ∀ t ∈ allTensors c, t ∈ allTensors m := by
  intro t ht
  cases m with
  | plain ps cs =>
    rw [allTensors_plain]
    exact List.mem_append.mpr (Or.inr (mem_allTC_of_lookupC hl t ht))
  | boft bd base =>
    rw [allTensors_boft]
    by_cases h1 : n = "boft_R"
    · have hc : Module.pdict bd.boft_R = c := by simpa [childLookup, h1] using hl
      subst hc
      rw [allTensors_pdict] at ht
      refine List.mem_cons_of_mem _ (List.mem_append.mpr (Or.inl (List.mem_append.mpr (Or.inr ht))))
    · by_cases h2 : n = "boft_s"
      · have hc : Module.pdict bd.boft_s = c := by simpa [childLookup, h1, h2] using hl
        subst hc
        rw [allTensors_pdict] at ht
        exact List.mem_cons_of_mem _ (List.mem_append.mpr (Or.inr ht))
      · by_cases h3 : n = "boft_dropout"
        · have hc : Module.mdict bd.boft_dropout = c := by
            simpa [childLookup, h1, h2, h3] using hl
          subst hc
          rw [allTensors_mdict] at ht
          simp at ht
        · simp [childLookup, h1, h2, h3] at hl
  | linear ld => simp [childLookup] at hl
  | pdict ps => simp [childLookup] at hl
  | mdict d => simp [childLookup] at hl

theorem mem_allTensors_of_getSub :
    ∀ (k : List String) (m sub : Module), getSub m k = some sub →
      ∀ t ∈ allTensors sub, t ∈ allTensors m := by
  intro k
  induction k with
  | nil =>
    intro m sub h t ht
    simp only [getSub, Option.some_inj] at h
    subst h; exact ht
  | cons n rest ih =>
    intro m sub h t ht
    simp only [getSub] at h
    cases hcl : childLookup m n with
    | none => simp [hcl] at h
    | some c =>
      simp only [hcl, Option.some_bind] at h
      exact mem_allTensors_of_childLookup hcl t (ih c sub h t ht)

theorem device_of_mem_setDev {d : Nat} {m : Module} :
    ∀ t ∈ allTensors (mapTensors (setDev d) m), t.device = d := by
  intro t ht
  rw [allTensors_mapTensors] at ht
  obtain ⟨t0, _, rfl⟩ := List.mem_map.mp ht
  rfl

theorem lookupC_dispatchC (d : Nat) {cs : Children} {n : String} :
    lookupC (dispatchC d cs) n =
      (lookupC cs n).map
        (fun c => if strHasSub n "boft_" then mapTensors (setDev d) c else dispatchBoft d c) := by
  induction cs using childrenInd with
  | h0 => simp [lookupC, dispatchC]
  | h1 n0 m0 r ih =>
    by_cases hn : n0 = n
    · subst hn
      simp [lookupC, dispatchC]
    · simp [lookupC, dispatchC, if_neg hn, ih]

/-- After the dispatch loop, every tensor reachable under a submodule key
containing `boft_` sits on the dispatched device. -/
theorem getSub_dispatch_dev :
    ∀ (k : List String) (d : Nat) (m sub : Module), k ≠ [] → keyHas k "boft_" = true →
      getSub (dispatchBoft d m) k = some sub → ∀ t ∈ allTensors sub, t.device = d := by
  intro k
  induction k with
  | nil => intro d m sub hk; exact absurd rfl hk
  | cons n rest ih =>
    intro d m sub _ hkey h t ht
    cases m with
    | linear ld => simp [dispatchBoft, getSub, childLookup] at h
    | pdict ps => simp [dispatchBoft, getSub, childLookup] at h
    | mdict dd => simp [dispatchBoft, getSub, childLookup] at h
    | boft bd base =>
      simp only [dispatchBoft, getSub, childLookup, mapBD] at h
      by_cases h1 : n = "boft_R"
      · rw [if_pos h1] at h
        simp only [Option.some_bind] at h
        cases rest with
        | nil =>
          simp only [getSub, Option.some_inj] at h
          subst h
          rw [allTensors_pdict, List.map_map] at ht
          obtain ⟨e0, _, rfl⟩ := List.mem_map.mp ht
          rfl
        | cons r1 r2 => simp [getSub, childLookup] at h
      · rw [if_neg h1] at h
        by_cases h2 : n = "boft_s"
        · rw [if_pos h2] at h
          simp only [Option.some_bind] at h
          cases rest with
          | nil =>
            simp only [getSub, Option.some_inj] at h
            subst h
            rw [allTensors_pdict, List.map_map] at ht
            obtain ⟨e0, _, rfl⟩ := List.mem_map.mp ht
            rfl
          | cons r1 r2 => simp [getSub, childLookup] at h
        · rw [if_neg h2] at h
          by_cases h3 : n = "boft_dropout"
          · rw [if_pos h3] at h
            simp only [Option.some_bind] at h
            cases rest with
            | nil =>
              simp only [getSub, Option.some_inj] at h
              subst h
              rw [allTensors_mdict] at ht
              simp at ht
            | cons r1 r2 => simp [getSub, childLookup] at h
          · rw [if_neg h3] at h
            simp at h
    | plain ps cs =>
      simp only [dispatchBoft, getSub, childLookup, lookupC_dispatchC] at h
      cases hl : lookupC cs n with
      | none => simp [hl] at h
      | some c =>
        rw [hl] at h
        simp only [Option.map_some', Option.some_bind] at h
        by_cases hb : strHasSub n "boft_" = true
        · rw [if_pos hb] at h
          exact device_of_mem_setDev t (mem_allTensors_of_getSub rest _ _ h t ht)
        · rw [if_neg hb] at h
          have hb' : strHasSub n "boft_" = false := by simpa using hb
          have hkey' : keyHas rest "boft_" = true := by
            simp only [keyHas, List.any_cons] at hkey
            rw [hb'] at hkey
            simpa [keyHas] using hkey
          have hrest : rest ≠ [] := by
            intro hr
            rw [hr] at hkey'
            simp [keyHas] at hkey'
          exact ih d c sub hrest hkey' h t ht

/- The dispatch loop only moves tensors to `d`: an all-on-`d` tree stays
all-on-`d`. -/
mutual
theorem dispatch_allDev (d : Nat) :
    ∀ m : Module, (∀ t ∈ allTensors m, t.device = d) →
      ∀ t ∈ allTensors (dispatchBoft d m), t.device = d
  | .linear ld => by intro hall t ht; exact hall t (by simpa [dispatchBoft] using ht)
  | .boft bd base => by
    intro hall t ht
    rw [dispatchBoft, allTensors_boft] at ht
    simp only [mapBD, List.map_map] at ht
    rcases List.mem_cons.mp ht with rfl | ht
    · exact hall _ (by rw [allTensors_boft]; exact List.mem_cons_self _ _)
    · rcases List.mem_append.mp ht with ht | ht
      · rcases List.mem_append.mp ht with ht | ht
        · refine hall t ?_
          rw [allTensors_boft]
          exact List.mem_cons_of_mem _
            (List.mem_append.mpr (Or.inl (List.mem_append.mpr (Or.inl ht))))
        · obtain ⟨e0, _, rfl⟩ := List.mem_map.mp ht
          rfl
      · obtain ⟨e0, _, rfl⟩ := List.mem_map.mp ht
        rfl
  | .pdict ps => by intro hall t ht; exact hall t (by simpa [dispatchBoft] using ht)
  | .mdict dd => by intro hall t ht; exact hall t (by simpa [dispatchBoft] using ht)
  | .plain ps cs => by
    intro hall t ht
    rw [dispatchBoft, allTensors_plain] at ht
    rcases List.mem_append.mp ht with ht | ht
    · refine hall t ?_
      rw [allTensors_plain]
      exact List.mem_append.mpr (Or.inl ht)
    · refine dispatchC_allDev d cs ?_ t ht
      intro t2 ht2
      refine hall t2 ?_
      rw [allTensors_plain]
      exact List.mem_append.mpr (Or.inr ht2)

theorem dispatchC_allDev (d : Nat) :
    ∀ cs : Children, (∀ t ∈ allTC cs, t.device = d) →
      ∀ t ∈ allTC (dispatchC d cs), t.device = d
  | .nil => by intro hall t ht; simp [allTC, npbC] at ht
  | .cons n m r => by
    intro hall t ht
    rw [dispatchC, allTC_cons] at ht
    rcases List.mem_append.mp ht with ht | ht
    · by_cases hb : strHasSub n "boft_" = true
      · rw [if_pos hb] at ht
        exact device_of_mem_setDev t ht
      · rw [if_neg hb] at ht
        refine dispatch_allDev d m ?_ t ht
        intro t2 ht2
        refine hall t2 ?_
        rw [allTC_cons]
        exact List.mem_append.mpr (Or.inl ht2)
    · refine dispatchC_allDev d r ?_ t ht
      intro t2 ht2
      refine hall t2 ?_
      rw [allTC_cons]
      exact List.mem_append.mpr (Or.inr ht2)
end

theorem stateOf_dispatch (d : Nat) (m : Module) : stateOf (dispatchBoft d m) = stateOf m := by
  cases m <;> rfl

theorem stateOf_mapTensors (f : Tensor → Tensor) (m : Module) :
    stateOf (mapTensors f m) = stateOf m := by
  cases m <;> rfl

theorem stateOf_setState {m : Module} (hm : isTorchLinearB m = true) (s : Nat) :
    stateOf (setState s m) = some s := by
  cases m <;> first | rfl | simp [isTorchLinearB] at hm

theorem isTorchLinearB_copyWeightBias (child new : Module) :
    isTorchLinearB (copyWeightBias child new) = isTorchLinearB new := by
  unfold copyWeightBias
  cases hw : weightOf child with
  | none => rfl
  | some w => cases new <;> rfl

/-- C6: `_replace_module` preserves device placement and quantization state:
every submodule of the installed module whose name contains `boft_` is moved
to the replaced child's weight device, and when the child carries a non-None
quantization `state`, that state is transferred onto the new module and the
whole new module is moved to the child's weight device. -/
theorem replace_module_preserves_device_and_state (child new : Module)
    (hnew : isTorchLinearB new = true) :
    (∀ (k : List String) (sub : Module), k ≠ [] → keyHas k "boft_" = true →
      getSub (replace_module_transform child new) k = some sub →
      ∀ t ∈ allTensors sub, t.device = weightDev child) ∧
    (∀ s, stateOf child = some s →
      stateOf (replace_module_transform child new) = some s ∧
      ∀ t ∈ allTensors (replace_module_transform child new), t.device = weightDev child) := by
  constructor
  · intro k sub hk hkey h t ht
    rw [replace_module_transform] at h
    exact getSub_dispatch_dev k (weightDev child) _ sub hk hkey h t ht
  · intro s hs
    rw [replace_module_transform, hs]
    have hlin1 : isTorchLinearB (copyWeightBias child new) = true := by
      rw [isTorchLinearB_copyWeightBias]; exact hnew
    constructor
    · rw [stateOf_dispatch, stateOf_mapTensors]
      exact stateOf_setState (by cases hx : copyWeightBias child new <;>
        rw [hx] at hlin1 <;> simp [isTorchLinearB, setState] at hlin1 ⊢) s
    · intro t ht
      exact dispatch_allDev (weightDev child) _ device_of_mem_setDev t ht

/-! `delete_adapter` machinery. -/

theorem wfC_lookup {cs : Children} (hnd : (childNames cs).Nodup) (hwfc : wfC cs = true) :
    ∀ {n : String} {rest : List String}, (n :: rest) ∈ keysC cs →
      ∃ c, lookupC cs n = some c ∧ rest ∈ namedKeys c ∧ wfB c = true := by
  induction cs using childrenInd with
  | h0 => intro n rest h; simp [keysC] at h
  | h1 n0 m0 r ih =>
    intro n rest hmem
    have hnd' := List.nodup_cons.mp (by simpa [childNames] using hnd)
    have hwf' : wfB m0 = true ∧ wfC r = true := by simpa [wfC] using hwfc
    simp only [keysC, List.mem_append, List.mem_map] at hmem
    rcases hmem with ⟨k0, hk0, heq⟩ | hmem
    · obtain ⟨rfl, rfl⟩ : n0 = n ∧ k0 = rest := by
        constructor <;> injection heq
      exact ⟨m0, by simp [lookupC], hk0, hwf'.1⟩
    · obtain ⟨c, hc, hr, hw⟩ := ih hnd'.2 hwf'.2 hmem
      have hne : n0 ≠ n := by
        intro hcne
        exact hnd'.1 (hcne ▸ mem_childNames_of_lookupC hc)
      exact ⟨c, by simp [lookupC, if_neg hne, hc], hr, hw⟩

/-- In a well-formed tree (sibling names unique, as PyTorch's child registry
guarantees) every `named_modules` key resolves. -/
theorem getSub_isSome_of_wf :
    ∀ (k : List String) (m : Module), wfB m = true → k ∈ namedKeys m →
      ∃ t, getSub m k = some t ∧ wfB t = true := by
  intro k
  induction k with
  | nil => intro m hwf _; exact ⟨m, rfl, hwf⟩
  | cons n rest ih =>
    intro m hwf hmem
    cases m with
    | linear ld => simp [namedKeys] at hmem
    | pdict ps => simp [namedKeys] at hmem
    | mdict d => simp [namedKeys] at hmem
    | boft bd base =>
      simp only [namedKeys, List.mem_cons, List.mem_singleton] at hmem
      rcases hmem with h | h | h | h | h
      · simp at h
      · obtain ⟨rfl, rfl⟩ : n = "boft_R" ∧ rest = [] := by
          constructor <;> injection h
        exact ⟨.pdict bd.boft_R, by simp [getSub, childLookup], rfl⟩
      · obtain ⟨rfl, rfl⟩ : n = "boft_s" ∧ rest = [] := by
          constructor <;> injection h
        exact ⟨.pdict bd.boft_s, by simp [getSub, childLookup], rfl⟩
      · obtain ⟨rfl, rfl⟩ : n = "boft_dropout" ∧ rest = [] := by
          constructor <;> injection h
        exact ⟨.mdict bd.boft_dropout, by simp [getSub, childLookup], rfl⟩
      · simp at h
    | plain ps cs =>
      have hw : (childNames cs).Nodup ∧ wfC cs = true := by simpa [wfB] using hwf
      have hnd : (childNames cs).Nodup := hw.1
      have hmem' : (n :: rest) ∈ keysC cs := by
        simpa [namedKeys] using hmem
      obtain ⟨c, hc, hr, hwc⟩ := wfC_lookup hnd hw.2 hmem'
      obtain ⟨t, ht, hwt⟩ := ih c hwc hr
      exact ⟨t, by simp [getSub, childLookup, hc, ht], hwt⟩

theorem boftSub_isSome_eq (s : List String) (bd bd' : BoftData) (base base' : LinearData) :
    (getSub (.boft bd base) s).isSome = (getSub (.boft bd' base') s).isSome := by
  cases s with
  | nil => rfl
  | cons n rest =>
    simp only [getSub, childLookup]
    by_cases h1 : n = "boft_R"
    · rw [if_pos h1, if_pos h1]
      cases rest <;> simp [getSub, childLookup]
    · rw [if_neg h1, if_neg h1]
      by_cases h2 : n = "boft_s"
      · rw [if_pos h2, if_pos h2]
        cases rest <;> simp [getSub, childLookup]
      · rw [if_neg h2, if_neg h2]
        by_cases h3 : n = "boft_dropout"
        · rw [if_pos h3, if_pos h3]
          cases rest <;> simp [getSub, childLookup]
        · rw [if_neg h3, if_neg h3]

/-- Swapping one wrapper for another (same base) keeps every key exactly as
resolvable as before. -/
theorem isSome_getSub_replace_boft {m : Module} {k : List String} {bd : BoftData}
    {base : LinearData} {bd' : BoftData} {base' : LinearData} {m' : Module}
    (hk : getSub m k = some (.boft bd base))
    (hrep : replaceAt m k (.boft bd' base') = some m') :
    ∀ q, (getSub m' q).isSome = (getSub m q).isSome := by
  intro q
  rcases keyTri k q with hd | ⟨s, hs⟩ | ⟨s, hs⟩
  · rw [getSub_replaceAt_diverge hrep hd]
  · subst hs
    rw [getSub_append, getSub_append, hk, getSub_replaceAt_self hrep]
    simp only [Option.some_bind]
    exact boftSub_isSome_eq s bd' bd base' base
  · subst hs
    rw [getSub_append] at hk
    have hq1 : ∃ t, getSub m q = some t := by
      cases hx : getSub m q with
      | none => rw [hx] at hk; simp at hk
      | some t => exact ⟨t, rfl⟩
    have hrep' := getSub_replaceAt_self hrep
    rw [getSub_append] at hrep'
    have hq2 : ∃ t, getSub m' q = some t := by
      cases hx : getSub m' q with
      | none => rw [hx] at hrep'; simp at hrep'
      | some t => exact ⟨t, rfl⟩
    obtain ⟨t1, ht1⟩ := hq1
    obtain ⟨t2, ht2⟩ := hq2
    rw [ht1, ht2]
    rfl

theorem removeKey_idem {A : Type} (l : List (String × A)) (kx : String) :
    removeKey (removeKey l kx) kx = removeKey l kx := by
  simp [removeKey, List.filter_filter]

/-- Popping an adapter twice is the same as popping it once (so reprocessing
a layer, which can only happen with aliased names, is harmless). -/
theorem deleteBd_idem (cfgs' : List (String × BOFTConfig)) (adapter : String) (bd : BoftData) :
    (deleteBd cfgs' adapter (deleteBd cfgs' adapter bd).1).1 = (deleteBd cfgs' adapter bd).1 := by
  obtain ⟨b1, b2, b3, b4, b5, act, fan⟩ := bd
  simp only [deleteBd]
  by_cases hin : adapter ∈ act
  · by_cases hr2 : adapter = (match cfgs' with | [] => "default" | e :: _ => e.1)
    · simp [hin, ← hr2, removeKey_idem]
    · simp [hin, hr2, removeKey_idem]
  · simp [hin, removeKey_idem]

/-- Steps of the delete loop never disturb a wrapper at another key, and are
idempotent at a fixed-point wrapper. -/
theorem deleteFold_preserve (cfgs' : List (String × BOFTConfig)) (adapter : String) :
    ∀ (ks : List (List String)) (m : Module) (ws : List String) {m' : Module}
      {ws' : List String} {q : List String} {bd : BoftData} {base : LinearData},
      deleteFold cfgs' adapter ks m ws = .ok (m', ws') →
      getSub m q = some (.boft bd base) →
      (deleteBd cfgs' adapter bd).1 = bd →
      getSub m' q = some (.boft bd base) := by
  intro ks
  induction ks with
  | nil =>
    intro m ws m' ws' q bd base h hq _
    simp only [deleteFold, Except.ok.injEq, Prod.mk.injEq] at h
    rw [← h.1]
    exact hq
  | cons k rest ih =>
    intro m ws m' ws' q bd base h hq hfix
    simp only [deleteFold] at h
    cases hk : getSub m k with
    | none => rw [hk] at h; simp at h
    | some t =>
      rw [hk] at h
      cases t with
      | boft bd0 base0 =>
        simp only at h
        cases hrep : replaceAt m k (.boft (deleteBd cfgs' adapter bd0).1 base0) with
        | none => rw [hrep] at h; simp at h
        | some m1 =>
          rw [hrep] at h
          by_cases hqk : q = k
          · subst hqk
            rw [hq] at hk
            have hinj : bd0 = bd ∧ base0 = base := by
              have h2 := hk.symm
              simp only [Option.some_inj, Module.boft.injEq] at h2
              exact h2
            rw [hinj.1, hinj.2, hfix] at hrep
            have h1 : getSub m1 q = some (.boft bd base) := getSub_replaceAt_self hrep
            exact ih m1 _ h h1 hfix
          · have h1 : getSub m1 q = some (.boft bd base) := by
              rcases keyTri k q with hd | ⟨s, hs⟩ | ⟨s, hs⟩
              · rw [getSub_replaceAt_diverge hrep hd]; exact hq
              · subst hs
                cases s with
                | nil => exact absurd (List.append_nil k) hqk
                | cons s1 s2 =>
                  exfalso
                  rw [getSub_append, hk] at hq
                  simp only [Option.some_bind] at hq
                  have := getSub_boft_not_torchLinear (s := s1 :: s2) (by simp) hq
                  simp [isTorchLinearB] at this
              · cases s with
                | nil =>
                  rw [List.append_nil] at hs
                  exact absurd hs.symm hqk
                | cons s1 s2 =>
                  exfalso
                  rw [hs, getSub_append, hq] at hk
                  simp only [Option.some_bind] at hk
                  have := getSub_boft_not_torchLinear (s := s1 :: s2) (by simp) hk
                  simp [isTorchLinearB] at this
            exact ih m1 _ h h1 hfix
      | linear ld => simp only at h; exact ih m _ h hq hfix
      | pdict ps => simp only at h; exact ih m _ h hq hfix
      | mdict d => simp only at h; exact ih m _ h hq hfix
      | plain ps cs => simp only at h; exact ih m _ h hq hfix

/-- A processed wrapper ends up with the adapter popped (and the active
adapter reset when needed). -/
theorem deleteFold_at (cfgs' : List (String × BOFTConfig)) (adapter : String) :
    ∀ (ks : List (List String)) (m : Module) (ws : List String) {m' : Module}
      {ws' : List String} {q : List String} {bd : BoftData} {base : LinearData},
      deleteFold cfgs' adapter ks m ws = .ok (m', ws') →
      q ∈ ks → getSub m q = some (.boft bd base) →
      getSub m' q = some (.boft (deleteBd cfgs' adapter bd).1 base) := by
  intro ks
  induction ks with
  | nil => intro m ws m' ws' q bd base _ hmem; simp at hmem
  | cons k rest ih =>
    intro m ws m' ws' q bd base h hmem hq
    simp only [deleteFold] at h
    by_cases hqk : q = k
    · subst hqk
      rw [hq] at h
      simp only at h
      cases hrep : replaceAt m q (.boft (deleteBd cfgs' adapter bd).1 base) with
      | none => rw [hrep] at h; simp at h
      | some m1 =>
        rw [hrep] at h
        have h1 : getSub m1 q = some (.boft (deleteBd cfgs' adapter bd).1 base) :=
          getSub_replaceAt_self hrep
        exact deleteFold_preserve cfgs' adapter rest m1 _ h h1 (deleteBd_idem cfgs' adapter bd)
    · have hmem' : q ∈ rest := by
        rcases List.mem_cons.mp hmem with hcm | hcm
        · exact absurd hcm hqk
        · exact hcm
      cases hk : getSub m k with
      | none => rw [hk] at h; simp at h
      | some t =>
        rw [hk] at h
        cases t with
        | boft bd0 base0 =>
          simp only at h
          cases hrep : replaceAt m k (.boft (deleteBd cfgs' adapter bd0).1 base0) with
          | none => rw [hrep] at h; simp at h
          | some m1 =>
            rw [hrep] at h
            have h1 : getSub m1 q = some (.boft bd base) := by
              rcases keyTri k q with hd | ⟨s, hs⟩ | ⟨s, hs⟩
              · rw [getSub_replaceAt_diverge hrep hd]; exact hq
              · subst hs
                cases s with
                | nil => exact absurd (List.append_nil k) hqk
                | cons s1 s2 =>
                  exfalso
                  rw [getSub_append, hk] at hq
                  simp only [Option.some_bind] at hq
                  have := getSub_boft_not_torchLinear (s := s1 :: s2) (by simp) hq
                  simp [isTorchLinearB] at this
              · cases s with
                | nil =>
                  rw [List.append_nil] at hs
                  exact absurd hs.symm hqk
                | cons s1 s2 =>
                  exfalso
                  rw [hs, getSub_append, hq] at hk
                  simp only [Option.some_bind] at hk
                  have := getSub_boft_not_torchLinear (s := s1 :: s2) (by simp) hk
                  simp [isTorchLinearB] at this
            exact ih m1 _ h hmem' h1
        | linear ld => simp only at h; exact ih m _ h hmem' hq
        | pdict ps => simp only at h; exact ih m _ h hmem' hq
        | mdict d => simp only at h; exact ih m _ h hmem' hq
        | plain ps cs => simp only at h; exact ih m _ h hmem' hq

/-- With every key resolvable (well-formed model) the delete loop never hits
an uncaught `AttributeError`. -/
theorem deleteFold_ok (cfgs' : List (String × BOFTConfig)) (adapter : String) :
    ∀ (ks : List (List String)) (m : Module) (ws : List String),
      (∀ k ∈ ks, (getSub m k).isSome = true) →
      ∃ r, deleteFold cfgs' adapter ks m ws = .ok r := by
  intro ks
  induction ks with
  | nil => intro m ws _; exact ⟨(m, ws), rfl⟩
  | cons k rest ih =>
    intro m ws hall
    have hk0 : (getSub m k).isSome = true := hall k (List.mem_cons_self _ _)
    cases hk : getSub m k with
    | none => rw [hk] at hk0; simp at hk0
    | some t =>
      cases t with
      | boft bd0 base0 =>
        obtain ⟨m1, hrep⟩ := replaceAt_some hk rfl (.boft (deleteBd cfgs' adapter bd0).1 base0)
        have hinv : ∀ k2 ∈ rest, (getSub m1 k2).isSome = true := by
          intro k2 hk2
          rw [isSome_getSub_replace_boft hk hrep k2]
          exact hall k2 (List.mem_cons_of_mem _ hk2)
        obtain ⟨r, hr⟩ := ih m1 (ws ++ (deleteBd cfgs' adapter bd0).2) hinv
        refine ⟨r, ?_⟩
        simp only [deleteFold, hk, hrep]
        exact hr
      | linear ld =>
        obtain ⟨r, hr⟩ := ih m ws (fun k2 hk2 => hall k2 (List.mem_cons_of_mem _ hk2))
        exact ⟨r, by simp only [deleteFold, hk]; exact hr⟩
      | pdict ps =>
        obtain ⟨r, hr⟩ := ih m ws (fun k2 hk2 => hall k2 (List.mem_cons_of_mem _ hk2))
        exact ⟨r, by simp only [deleteFold, hk]; exact hr⟩
      | mdict d =>
        obtain ⟨r, hr⟩ := ih m ws (fun k2 hk2 => hall k2 (List.mem_cons_of_mem _ hk2))
        exact ⟨r, by simp only [deleteFold, hk]; exact hr⟩
      | plain ps cs =>
        obtain ⟨r, hr⟩ := ih m ws (fun k2 hk2 => hall k2 (List.mem_cons_of_mem _ hk2))
        exact ⟨r, by simp only [deleteFold, hk]; exact hr⟩

/-- C10 (amended): `delete_adapter` raises `ValueError` exactly when the name
is not registered (and then changes nothing); on success it removes the name
from the registry and pops it from the per-adapter dictionaries of every
`BOFTLayer` reachable at a `named_modules` key that does not contain the
substring `lora` (the filter at line 303 skips `lora`-named keys, see the
counterexample), resetting the active adapter of affected layers to the first
remaining registered name or `"default"` with a warning (`deleteBd`). -/
theorem delete_adapter_spec (cfgs : List (String × BOFTConfig)) (m : Module)
    (adapter : String) (hwf : wfB m = true) :
    (cfgs.any (fun e => e.1 = adapter) = false →
      delete_adapter cfgs m adapter =
        .error (.valueError ("Adapter " ++ adapter ++ " does not exist"))) ∧
    (cfgs.any (fun e => e.1 = adapter) = true →
      ∃ m' ws, delete_adapter cfgs m adapter = .ok (removeKey cfgs adapter, m', ws) ∧
        ∀ q bd base, keyHas q "lora" = false → getSub m q = some (.boft bd base) →
          getSub m' q = some (.boft (deleteBd (removeKey cfgs adapter) adapter bd).1 base)) := by
  constructor
  · intro h
    simp [delete_adapter, h]
  · intro h
    have hall : ∀ k ∈ (namedKeys m).filter (fun k => keyHas k "lora" = false),
        (getSub m k).isSome = true := by
      intro k hk
      obtain ⟨t, ht, _⟩ := getSub_isSome_of_wf k m hwf (List.mem_of_mem_filter hk)
      rw [ht]; rfl
    obtain ⟨⟨m', ws⟩, hok⟩ := deleteFold_ok (removeKey cfgs adapter) adapter _ m [] hall
    refine ⟨m', ws, ?_, ?_⟩
    · simp only [delete_adapter, h, if_pos, hok]
    · intro q bd base hkey hq
      have hmem : q ∈ (namedKeys m).filter (fun k => keyHas k "lora" = false) := by
        rw [List.mem_filter]
        exact ⟨mem_namedKeys_of_getSub q m hq, by simp [hkey]⟩
      exact deleteFold_at (removeKey cfgs adapter) adapter _ m [] hok hmem hq

/-! Concrete data for witnesses and counterexamples. -/

def sT1 : Tensor := { tid := 1, device := 2, requiresGrad := true, folded := false }

def sT2 : Tensor := { tid := 2, device := 3, requiresGrad := true, folded := false }

def sLD : LinearData :=
  { inFeatures := 4, outFeatures := 6, weight := sT1, bias := some sT2, state := none }

def sCfg : BOFTConfig :=
  { boft_block_size := 2, boft_block_num := 0, boft_n_butterfly_factor := 1,
    boft_dropout := 0, fan_in_fan_out := false, init_boft_weights := true,
    boft_bias_fit := false, bias := "none" }

def sBD : BoftData :=
  { boft_block_size := [("a0", 2)], boft_block_num := [("a0", 0)],
    boft_R := [("a0", sT1)], boft_s := [("a0", sT1)], boft_dropout := [("a0", 0)],
    active_adapter_list := ["a0"], fan_in_fan_out := false }

def mQL : Module := .plain [] (.cons "q" (.linear sLD) .nil)

def mQB : Module := .plain [] (.cons "q" (.boft sBD sLD) .nil)

def mC4inj : Module :=
  .plain []
    (.cons "q"
      (.boft
        { boft_block_size := [("default", 2)], boft_block_num := [("default", 0)],
          boft_R := [("default", { tid := 0, device := 2, requiresGrad := true, folded := false })],
          boft_s := [("default", { tid := 0, device := 2, requiresGrad := true, folded := false })],
          boft_dropout := [("default", 0)], active_adapter_list := ["default"],
          fan_in_fan_out := false }
        sLD)
      .nil)

def sT7 : Tensor := { tid := 7, device := 1, requiresGrad := true, folded := false }

def sLD3 : LinearData :=
  { inFeatures := 3, outFeatures := 3, weight := sT7, bias := none, state := none }

def cexBD1 : BoftData :=
  { boft_block_size := [("default", 2)], boft_block_num := [("default", 0)],
    boft_R := [("default", { tid := 0, device := 1, requiresGrad := true, folded := false })],
    boft_s := [("default", { tid := 0, device := 1, requiresGrad := true, folded := false })],
    boft_dropout := [("default", 0)], active_adapter_list := ["default"],
    fan_in_fan_out := false }

def mBase3 : Module := .plain [] (.cons "boft_v" (.linear sLD3) .nil)

def mBase4 : Module := .plain [] (.cons "boft_u" (.linear sLD3) .nil)

def mCex3 : Module := .plain [] (.cons "boft_v" (.boft cexBD1 sLD3) .nil)

def mCex4 : Module := .plain [] (.cons "boft_u" (.boft cexBD1 sLD3) .nil)

def mP5 : Module := .plain [] (.cons "p" (.plain [("w", sT1)] .nil) .nil)

def cfgFan : BOFTConfig := { sCfg with fan_in_fan_out := true }

def childC6 : Module :=
  .linear
    { inFeatures := 2, outFeatures := 2,
      weight := { tid := 9, device := 5, requiresGrad := true, folded := false },
      bias := some { tid := 10, device := 0, requiresGrad := true, folded := false },
      state := some 5 }

def sBDn : BoftData :=
  { boft_block_size := [("d", 2)], boft_block_num := [("d", 0)],
    boft_R := [("d", { tid := 11, device := 0, requiresGrad := true, folded := false })],
    boft_s := [("d", { tid := 12, device := 0, requiresGrad := true, folded := false })],
    boft_dropout := [("d", 0)], active_adapter_list := ["d"], fan_in_fan_out := false }

def newC6 : Module := .boft sBDn (freshLinear 2 2 true)

def subC6 : Module :=
  .pdict [("d", { tid := 11, device := 5, requiresGrad := true, folded := false })]

def tC6 : Tensor := { tid := 11, device := 5, requiresGrad := true, folded := false }

def cfgAll : BOFTConfig := { sCfg with bias := "all" }

def cfgBad : BOFTConfig := { sCfg with bias := "boft_new" }

def sBD10 : BoftData :=
  { boft_block_size := [("a", 2), ("b", 2)], boft_block_num := [("a", 0), ("b", 0)],
    boft_R := [("a", sT1), ("b", sT2)], boft_s := [("a", sT1), ("b", sT2)],
    boft_dropout := [("a", 0), ("b", 0)], active_adapter_list := ["a"],
    fan_in_fan_out := false }

def mC10 : Module := .plain [] (.cons "q" (.boft sBD10 sLD) .nil)

def mCex10 : Module := .plain [] (.cons "lora_x" (.boft sBD10 sLD) .nil)

/-! Witnesses and counterexamples. -/

/-- Witness for C1 at a two-adapter wrapper and at a plain Linear target. -/
theorem create_and_replace_branching_witness :
    (∃ m', create_and_replaceAt sCfg "default" "default" mQB ["q"] = .ok (m', sCfg, []) ∧
      getSub m' ["q"] = some (.boft (update_layer sBD "default" sCfg) sLD) ∧
      lookupA (update_layer sBD "default" sCfg).boft_block_size "default" =
        some sCfg.boft_block_size) ∧
    (∃ m' cfg' ws bd' base',
      create_and_replaceAt sCfg "default" "default" mQL ["q"] = .ok (m', cfg', ws) ∧
      getSub m' ["q"] = some (.boft bd' base') ∧ base'.weight = sLD.weight ∧
      base'.inFeatures = sLD.inFeatures ∧ base'.outFeatures = sLD.outFeatures) :=
  ⟨(create_and_replace_branching sCfg "default" "default" mQB ["q"] (by decide)).1 sBD sLD rfl,
   (create_and_replace_branching sCfg "default" "default" mQL ["q"] (by decide)).2 sLD rfl⟩

/-- Witness for C2: the injected `boft_R` parameter stays trainable and is
classified as an adapter parameter. -/
theorem mark_only_adapters_freezes_nonadapters_witness :
    (mark_only_adapters_as_trainable [("a0", sCfg)] ["a0"] mQB = .ok (markStep1 mQB)) ∧
    ((["q", "boft_R", "a0"], false, sT1) ∈ npb (markStep1 mQB)) ∧
    (sT1.requiresGrad = true) ∧
    (keyHas ["q", "boft_R", "a0"] "boft_" = true ∨
      (∃ a ∈ ["a0"], ∃ c, lookupCfg [("a0", sCfg)] a = some c ∧ c.bias = "all" ∧
        keyHas ["q", "boft_R", "a0"] "bias" = true) ∨
      (∃ a ∈ ["a0"], ∃ c, lookupCfg [("a0", sCfg)] a = some c ∧ c.bias = "boft_only" ∧
        false = true)) :=
  ⟨rfl, by decide, rfl,
   mark_only_adapters_freezes_nonadapters [("a0", sCfg)] ["a0"] mQB (markStep1 mQB) rfl
     (["q", "boft_R", "a0"], false, sT1) (by decide) (by decide)⟩

/-- Witness for C3 at a wrapper under the key `q`. -/
theorem merge_and_unload_replaces_nonboft_keys_witness :
    ∃ ld : LinearData, getSub (merge_and_unload mQB) ["q"] = some (.linear ld) ∧
      ld.inFeatures = sLD.inFeatures ∧ ld.outFeatures = sLD.outFeatures ∧
      ld.bias.isSome = sLD.bias.isSome ∧ ld.weight = foldT sLD.weight ∧
      ld.bias.map Tensor.tid = sLD.bias.map Tensor.tid :=
  merge_and_unload_replaces_nonboft_keys mQB ["q"] sBD sLD (by decide) (by decide) rfl

/-- C3 counterexample: a matched Linear named `boft_v` is wrapped by
injection, but `merge_and_unload` skips its key (it contains `boft`), so the
returned model still contains a `BOFTLayer`; a wrapper at the root likewise
survives. -/
theorem merge_and_unload_keeps_boft_key_counterexample :
    (create_and_replaceAt sCfg "default" "default" mBase3 ["boft_v"] = .ok (mCex3, sCfg, [])) ∧
    containsBoftB (merge_and_unload mCex3) = true ∧
    containsBoftB (merge_and_unload (.boft cexBD1 sLD3)) = true :=
  ⟨rfl, rfl, rfl⟩

/-- Witness for C4: inject over `q`, unload, recover the original tensors. -/
theorem unload_round_trip_witness :
    ∃ ld' : LinearData, getSub (unload mC4inj) ["q"] = some (.linear ld') ∧
      ld'.inFeatures = sLD.inFeatures ∧ ld'.outFeatures = sLD.outFeatures ∧
      ld'.weight = sLD.weight ∧ ld'.state = sLD.state ∧
      ld'.bias.map Tensor.tid = sLD.bias.map Tensor.tid ∧
      (sLD.state = none → ld'.bias = sLD.bias) :=
  unload_round_trip sCfg "default" mQL ["q"] sLD (by decide) (by decide) rfl rfl

/-- C4 counterexample: a wrapper injected at the key `boft_u` (or sitting at
the root) survives `unload()`, so the returned model still contains a
`BOFTLayer`. -/
theorem unload_keeps_boft_key_counterexample :
    (create_and_replaceAt sCfg "default" "default" mBase4 ["boft_u"] = .ok (mCex4, sCfg, [])) ∧
    containsBoftB (unload mCex4) = true ∧
    containsBoftB (unload (.boft cexBD1 sLD3)) = true :=
  ⟨rfl, rfl, rfl⟩

/-- Witness for C5: a non-Linear target is rejected; a Linear target under
`fan_in_fan_out = True` is wrapped with the flag forced off and a warning. -/
theorem create_new_module_only_linear_witness :
    (create_and_replaceAt sCfg "default" "default" mP5 ["p"] =
      .error (.valueError unsupportedMsg)) ∧
    (∃ m' ws, create_and_replaceAt cfgFan "default" "default" mQL ["q"] =
        .ok (m', { cfgFan with fan_in_fan_out := false }, ws) ∧ ws = [fanWarnMsg]) :=
  ⟨(create_new_module_only_linear sCfg "default" "default" mP5 ["p"]
      (.plain [("w", sT1)] .nil) rfl).1 rfl rfl,
   ((create_new_module_only_linear cfgFan "default" "default" mQL ["q"]
      (.linear sLD) rfl).2 sLD rfl rfl).2.2⟩

/-- Witness for C6: the `boft_R` container of the new module lands on the
child's weight device (device 5), and the quantization state is carried
over with a full device move. -/
theorem replace_module_preserves_device_and_state_witness :
    (keyHas ["boft_R"] "boft_" = true) ∧
    (getSub (replace_module_transform childC6 newC6) ["boft_R"] = some subC6) ∧
    (tC6 ∈ allTensors subC6) ∧
    (tC6.device = weightDev childC6) ∧
    (stateOf childC6 = some 5) ∧
    (stateOf (replace_module_transform childC6 newC6) = some 5) :=
  ⟨by decide, rfl, by decide,
   (replace_module_preserves_device_and_state childC6 newC6 rfl).1 ["boft_R"] subC6
     (by decide) (by decide) rfl tC6 (by decide),
   rfl,
   ((replace_module_preserves_device_and_state childC6 newC6 rfl).2 5 rfl).1⟩

/-- Witness for C7: the `"all"` policy characterisation and the
`NotImplementedError` on an unknown bias value. -/
theorem bias_policy_cases_witness :
    (∃ m', mark_only_adapters_as_trainable [("x", cfgAll)] ["x"] mQB = .ok m' ∧
      npb m' = (npb (markStep1 mQB)).map
        (fun e => (e.1, e.2.1, if keyHas e.1 "bias" then setRG true e.2.2 else e.2.2))) ∧
    (mark_only_adapters_as_trainable [("y", cfgBad)] ["y"] mQB =
      .error (.notImplementedError ("Requested bias: " ++ cfgBad.bias ++ ", is not implemented."))) :=
  ⟨(bias_policy_cases [("x", cfgAll)] "x" cfgAll mQB rfl).2.1 rfl,
   (bias_policy_cases [("y", cfgBad)] "y" cfgBad mQB rfl).2.2.2
     (by decide) (by decide) (by decide)⟩

/-- Witness for C9 at a two-entry registry and a biased config. -/
theorem check_new_adapter_config_spec_witness :
    (∃ e, check_new_adapter_config [("a", sCfg), ("b", sCfg)] cfgAll = .error e) ∧
    check_new_adapter_config [("a", sCfg), ("b", sCfg)] cfgAll =
      check_new_adapter_config [("c", cfgAll), ("d", cfgAll)] cfgAll :=
  ⟨(check_new_adapter_config_spec [("a", sCfg), ("b", sCfg)] cfgAll).1.mpr
      ⟨by decide, by decide⟩,
   (check_new_adapter_config_spec [("a", sCfg), ("b", sCfg)] cfgAll).2 _ rfl⟩

/-- Witness for C10: deleting an unregistered adapter fails; deleting a
registered one succeeds and cleans the wrapper under `q`. -/
theorem delete_adapter_spec_witness :
    (delete_adapter [("b", sCfg)] mC10 "a" =
      .error (.valueError ("Adapter " ++ "a" ++ " does not exist"))) ∧
    (∃ m' ws, delete_adapter [("a", sCfg), ("b", sCfg)] mC10 "a" =
        .ok (removeKey [("a", sCfg), ("b", sCfg)] "a", m', ws) ∧
      ∀ q bd base, keyHas q "lora" = false → getSub mC10 q = some (.boft bd base) →
        getSub m' q =
          some (.boft (deleteBd (removeKey [("a", sCfg), ("b", sCfg)] "a") "a" bd).1 base)) :=
  ⟨(delete_adapter_spec [("b", sCfg)] mC10 "a" (by decide)).1 (by decide),
   (delete_adapter_spec [("a", sCfg), ("b", sCfg)] mC10 "a" (by decide)).2 (by decide)⟩

/-- C10 counterexample: a `BOFTLayer` whose key contains `lora` is skipped by
`delete_adapter`: the model comes back bit-for-bit unchanged, its per-adapter
dictionaries still holding the deleted adapter. -/
theorem delete_adapter_lora_key_counterexample :
    (delete_adapter [("a", sCfg), ("b", sCfg)] mCex10 "a" = .ok ([("b", sCfg)], mCex10, [])) ∧
    lookupA sBD10.boft_block_size "a" = some 2 :=
  ⟨rfl, rfl⟩

end BOFT
